import Mathlib

/-!
Verification of the gym-management-system member-record subsystem.

The Python sources are shallowly embedded: Python strings are modelled as
`List Char` (`Str`), the document store as an explicit list of documents
carrying their extracted text and modification time, and the filesystem used
by `save_new_member` as an explicit record of directories and files.
Each definition names the Python function it translates.
-/

/-- Python strings are modelled as lists of characters. -/
abbrev Str := List Char

/-- Convenience conversion from a Lean string literal to the `Str` model. -/
def strL (s : String) : Str := s.toList

/-- Python `str.lower()` (ASCII case folding, which covers all data the
program stores). -/
def toLowerS (s : Str) : Str := s.map Char.toLower

/-- Whitespace test used by Python `str.strip()` and `str.split()`. -/
def isWs (c : Char) : Bool := c.isWhitespace

/-- Python `str.strip()`: remove leading and trailing whitespace. -/
def trimS (s : Str) : Str :=
  ((s.dropWhile isWs).reverse.dropWhile isWs).reverse

/-- Python `str.startswith(p)`. -/
def startsWithS (p s : Str) : Bool :=
  match p, s with
  | [], _ => true
  | _ :: _, [] => false
  | a :: ps, b :: ss => if a = b then startsWithS ps ss else false

/-- Python substring test `needle in hay`. -/
def containsSub (n h : Str) : Bool :=
  match h with
  | [] => startsWithS n []
  | _ :: t => startsWithS n h || containsSub n t

/-- Python `s.split(sep, 1)` restricted to what the decoder uses: `none` when
the separator does not occur (so that indexing `[1]` would raise), otherwise
the parts before and after the first occurrence. -/
def splitFirst (c : Char) : Str → Option (Str × Str)
  | [] => none
  | a :: s => if a = c then some ([], s)
              else (splitFirst c s).map (fun p => (a :: p.1, p.2))

/-- Python `s.split(sep)` on a one-character separator. -/
def splitAllCh (c : Char) : Str → List Str
  | [] => [[]]
  | a :: s =>
    if a = c then [] :: splitAllCh c s
    else
      match splitAllCh c s with
      | [] => [[a]]
      | t :: ts => (a :: t) :: ts

/-- Helper for `splitWsS`; `cur` holds the current token reversed. -/
def splitWsAux : Str → Str → List Str
  | [], cur => if cur = [] then [] else [cur.reverse]
  | c :: s, cur =>
    if isWs c then
      if cur = [] then splitWsAux s [] else cur.reverse :: splitWsAux s []
    else splitWsAux s (c :: cur)

/-- Python `s.split()` with no argument: split on whitespace runs, dropping
empty tokens. -/
def splitWsS (s : Str) : List Str := splitWsAux s []

/-- Digit characters rendered by `str(n)`. -/
def dchar (d : Nat) : Char := Char.ofNat (48 + d)

/-- Value of an all-digit string, used by the model of Python `int(s)`. -/
def digitsVal (s : Str) : Nat := s.foldl (fun a c => a * 10 + (c.toNat - 48)) 0

/-- Model of Python `int(s)` on a decimal string: strip whitespace, allow one
sign, then require a nonempty run of digits; `none` models `ValueError`. -/
def pyInt (s : Str) : Option Int :=
  match trimS s with
  | '-' :: r => if r ≠ [] ∧ r.all Char.isDigit then some (-(digitsVal r : Int)) else none
  | '+' :: r => if r ≠ [] ∧ r.all Char.isDigit then some ((digitsVal r : Int)) else none
  | r => if r ≠ [] ∧ r.all Char.isDigit then some ((digitsVal r : Int)) else none

/-- Fuel-driven decimal rendering of a natural number (structural recursion so
that concrete evaluation reduces). -/
def natToStrAux : Nat → Nat → Str
  | 0, _ => []
  | fuel + 1, n =>
    if n < 10 then [dchar n]
    else natToStrAux fuel (n / 10) ++ [dchar (n % 10)]

/-- Python `str(n)` for a natural number. -/
def natToStr (n : Nat) : Str := natToStrAux (n + 1) n

/-- Python `str(i)` for an integer. -/
def intToStr (i : Int) : Str :=
  if i < 0 then '-' :: natToStr i.natAbs else natToStr i.toNat

/-- Python format `f-string` specifier `{i:02d}`: pad with one leading zero
when the rendering is a single character. -/
def format02 (i : Int) : Str :=
  let s := intToStr i
  if s.length < 2 then '0' :: s else s

/-- Helper for `pySplitlines`; `cur` holds the current line reversed.  A
trailing newline produces no trailing empty line, as in Python. -/
def pySplitlinesAux : Str → Str → List Str
  | [], cur => [cur.reverse]
  | c :: rest, cur =>
    if c = '\n' then
      match rest with
      | [] => [cur.reverse]
      | _ => cur.reverse :: pySplitlinesAux rest []
    else pySplitlinesAux rest (c :: cur)

/-- Python `str.splitlines()` for newline-separated text (the only separator
the generated documents contain). -/
def pySplitlines (s : Str) : List Str :=
  match s with
  | [] => []
  | _ => pySplitlinesAux s []

/-- Rendering of a Python value that is either a string or `None` inside an
f-string (`None` prints as the four letters `None`). -/
def pyStrOpt : Option Str → Str
  | some s => s
  | none => strL "None"

/-- Rendering of a Python value that is either an int or `None` inside an
f-string. -/
def pyShowOptInt : Option Int → Str
  | some n => intToStr n
  | none => strL "None"

/-! ## Record codec (`src/services/pdf_service.py`) -/

/-- Member record as written by the registration and renewal flows
(`src/models/member.py`).  `end_date` is `Option Str` because the status
update path can rebuild a member from a decoded document whose End Date line
was absent, in which case Python stores `None` in the field. -/
structure Member where
  id : Str
  name : Str
  phone : Str
  blood : Str
  gender : Str
  cnic : Str
  day : Int
  month : Int
  year : Int
  membership_months : Int
  package : Str
  end_date : Option Str
  status : Str
  photo_path : Option Str := none
  fingerprint_data : Option Str := none
deriving DecidableEq, Repr

/-- Result dictionary of `parse_member_from_pdf`.  The seven string fields are
initialised to the empty string and always present; `day`, `month`, `year` are
initialised to Python `None`; `membership_months`, `end_date` and `status`
keys are absent (`none`) until their line is parsed. -/
structure ParsedMember where
  id : Str := []
  name : Str := []
  phone : Str := []
  blood : Str := []
  gender : Str := []
  cnic : Str := []
  package : Str := []
  day : Option Int := none
  month : Option Int := none
  year : Option Int := none
  membership_months : Option Int := none
  end_date : Option Str := none
  status : Option Str := none
  photo_path : Option Str := none
deriving DecidableEq, Repr

/-- A stored document: filename stem, extracted text (`none` when the file
cannot be opened or read, making `PdfReader` raise), and modification time. -/
structure Doc where
  stem : Str
  path : Str
  text : Option Str
  mtime : Nat
deriving DecidableEq, Repr

/-- Field update for the loop `for key in [id, name, phone, blood, gender,
cnic]` in `parse_member_from_pdf`. -/
def setStd (d : ParsedMember) (key : Nat) (v : Str) : ParsedMember :=
  match key with
  | 0 => { d with id := v }
  | 1 => { d with name := v }
  | 2 => { d with phone := v }
  | 3 => { d with blood := v }
  | 4 => { d with gender := v }
  | _ => { d with cnic := v }

/-- Labels of the six standard fields, in source order. -/
def stdLabel (key : Nat) : Str :=
  match key with
  | 0 => strL "id"
  | 1 => strL "name"
  | 2 => strL "phone"
  | 3 => strL "blood"
  | 4 => strL "gender"
  | _ => strL "cnic"

/-- One iteration of the standard-field loop: case-insensitive prefix check,
then split on the first colon and strip (the `IndexError` branch leaves the
dictionary unchanged). -/
def procStd (d : ParsedMember) (key : Nat) (ln : Str) : ParsedMember :=
  if startsWithS (stdLabel key ++ [':']) (toLowerS ln) then
    match splitFirst ':' ln with
    | some (_, aft) => setStd d key (trimS aft)
    | none => d
  else d

/-- The `Package:` branch (case-sensitive prefix). -/
def packageStep (d : ParsedMember) (ln : Str) : ParsedMember :=
  if startsWithS (strL "Package:") ln then
    match splitFirst ':' ln with
    | some (_, aft) => { d with package := trimS aft }
    | none => d
  else d

/-- Numeric extraction of the `Join Date:` branch:
`ln.split(":")[1].strip().split("/")`, then `int` on the first three parts.
Any `ValueError`/`IndexError` yields `none`. -/
def joinDateFields (ln : Str) : Option (Int × Int × Int) :=
  match (splitAllCh ':' ln).get? 1 with
  | none => none
  | some seg =>
    let parts := splitAllCh '/' (trimS seg)
    match (parts.get? 0).bind pyInt, (parts.get? 1).bind pyInt,
          (parts.get? 2).bind pyInt with
    | some a, some b, some c => some (a, b, c)
    | _, _, _ => none

/-- The `Join Date:` branch.  The three assignments happen together, and a
numeric failure anywhere leaves all three fields unchanged. -/
def joinDateStep (d : ParsedMember) (ln : Str) : ParsedMember :=
  if startsWithS (strL "Join Date:") ln then
    match joinDateFields ln with
    | some (a, b, c) => { d with day := some a, month := some b, year := some c }
    | none => d
  else d

/-- Numeric extraction of the `Membership:` branch:
`int(ln.split(":")[1].strip().split()[0])`; failures yield `none`. -/
def membershipValue (ln : Str) : Option Int :=
  match (splitAllCh ':' ln).get? 1 with
  | none => none
  | some seg =>
    match (splitWsS (trimS seg)).get? 0 with
    | none => none
    | some tok => pyInt tok

/-- The `Membership:` branch. -/
def membershipStep (d : ParsedMember) (ln : Str) : ParsedMember :=
  if startsWithS (strL "Membership:") ln then
    match membershipValue ln with
    | some n => { d with membership_months := some n }
    | none => d
  else d

/-- The `End Date:` branch. -/
def endDateStep (d : ParsedMember) (ln : Str) : ParsedMember :=
  if startsWithS (strL "End Date:") ln then
    match splitFirst ':' ln with
    | some (_, aft) => { d with end_date := some (trimS aft) }
    | none => d
  else d

/-- The `Status:` branch. -/
def statusStep (d : ParsedMember) (ln : Str) : ParsedMember :=
  if startsWithS (strL "Status:") ln then
    match splitFirst ':' ln with
    | some (_, aft) => { d with status := some (trimS aft) }
    | none => d
  else d

/-- Processing of one extracted text line of `parse_member_from_pdf`: the
source runs every branch in sequence on the same line. -/
def processLine (d : ParsedMember) (ln : Str) : ParsedMember :=
  let d := procStd d 0 ln
  let d := procStd d 1 ln
  let d := procStd d 2 ln
  let d := procStd d 3 ln
  let d := procStd d 4 ln
  let d := procStd d 5 ln
  let d := packageStep d ln
  let d := joinDateStep d ln
  let d := membershipStep d ln
  let d := endDateStep d ln
  let d := statusStep d ln
  d

/-- Fallback at the end of `parse_member_from_pdf`: if no `Id:` line was
parsed (id still the empty string, which is falsy), use the filename stem. -/
def fallbackId (stem : Str) (d : ParsedMember) : ParsedMember :=
  if d.id = [] then { d with id := stem } else d

/-- Decoding of a document body given its filename stem. -/
def parseText (stem : Str) (text : Str) : ParsedMember :=
  fallbackId stem ((pySplitlines text).foldl processLine {})

/-- `parse_member_from_pdf`: an unreadable document makes `PdfReader` raise,
which the source converts to `None`; otherwise the extracted text is decoded
line by line and a dictionary is always returned. -/
def parseDoc (doc : Doc) : Option ParsedMember :=
  doc.text.map (parseText doc.stem)

/-- Text lines drawn by `create_member_pdf` for a full `Member.__dict__`
(which always carries the `membership_months` key, so the membership block is
always emitted).  Field order and label shapes follow the source exactly. -/
def encodeLines (m : Member) : List Str :=
  [ strL "💪 SOLID GYM (" ++ m.id ++ strL ")",
    strL "Id: " ++ m.id,
    strL "Name: " ++ m.name,
    strL "Phone: " ++ m.phone,
    strL "Blood: " ++ m.blood,
    strL "Gender: " ++ m.gender,
    strL "Cnic: " ++ m.cnic,
    strL "Join Date: " ++ format02 m.day ++ strL "/" ++ format02 m.month
      ++ strL "/" ++ intToStr m.year,
    strL "Membership: " ++ intToStr m.membership_months ++ strL " months",
    strL "Package: " ++ m.package,
    strL "End Date: " ++ pyStrOpt m.end_date,
    strL "Status: " ++ m.status,
    strL "Created by: Sayyam Shahbaz",
    strL "LinkedIn: https://www.linkedin.com/in/sayyam-shahbaz-05894a194/",
    strL "Instagram: https://www.instagram.com/safderkhan0800_/" ]

/-- Newline join of drawn text lines, the shape `PdfReader.extract_text`
recovers from the rendered page. -/
def joinLines : List Str → Str
  | [] => []
  | [l] => l
  | l :: l2 :: ls => l ++ '\n' :: joinLines (l2 :: ls)

/-- Extracted text of the document produced by `create_member_pdf`: the drawn
lines joined by newlines. -/
def encodeText (m : Member) : Str :=
  joinLines (encodeLines m)

/-! ## Record store and search (`src/services/member_service.py`) -/

/-- Photo attachment step shared by `search_members` and `get_member_by_id`:
`find_photo` consults an external photo directory, modelled as an abstract
lookup from member id to photo path. -/
def withPhoto (photos : Str → Option Str) (p : ParsedMember) : ParsedMember :=
  match photos p.id with
  | some ph => { p with photo_path := some ph }
  | none => p

/-- Python `max(xs, key=f)` for a nonempty list: the first element realising
the maximum (later elements replace the current best only when strictly
greater). -/
def pyMaxBy (f : α → Nat) : List α → Option α
  | [] => none
  | x :: xs => some (xs.foldl (fun b y => if f y > f b then y else b) x)

/-- Search result of `search_members`: candidate documents plus the decoded
best match (`parsed` is absent when there are no candidates, and `none` when the
best document fails to decode). -/
structure SearchResult where
  matchList : List Doc
  parsed : Option ParsedMember
deriving DecidableEq, Repr

/-- Filename pass of `search_members`: documents whose stem contains the
normalised query as a substring. -/
def filenamePass (docs : List Doc) (ql : Str) : List Doc :=
  docs.filter (fun d => containsSub ql (toLowerS d.stem))

/-- Content pass of `search_members`: decode every document and keep those
whose decoded name contains the query (decode failures are skipped by the
`try`/`except`). -/
def contentPass (docs : List Doc) (ql : Str) : List Doc :=
  docs.filter (fun d =>
    match parseDoc d with
    | some p => containsSub ql (toLowerS p.name)
    | none => false)

/-- `search_members`: normalise the query, try the filename pass, fall back to
the content pass only when it found nothing, then decode the most recently
modified candidate as the best match. -/
def searchMembers (docs : List Doc) (photos : Str → Option Str)
    (query : Str) : SearchResult :=
  let ql := trimS (toLowerS query)
  let fileMatches := filenamePass docs ql
  let matchList := if fileMatches.isEmpty then contentPass docs ql else fileMatches
  match pyMaxBy (fun d => d.mtime) matchList with
  | none => { matchList := [], parsed := none }
  | some latest =>
    { matchList := matchList, parsed := (parseDoc latest).map (withPhoto photos) }

/-- `get_member_by_id`: exact (case-insensitive, query-trimmed) stem match,
newest document wins, decode possibly `None`. -/
def getMemberById (docs : List Doc) (photos : Str → Option Str)
    (memberId : Str) : Option ParsedMember :=
  let found := docs.filter (fun d => toLowerS d.stem = trimS (toLowerS memberId))
  match pyMaxBy (fun d => d.mtime) found with
  | none => none
  | some latest => (parseDoc latest).map (withPhoto photos)

/-- Python exceptions surfaced by the embedded operations. -/
inductive PyError where
  | valueError
  | typeError
  | keyError
deriving DecidableEq, Repr

/-- Python `int(x)` on a value that is either an int or `None`: `int(None)`
raises `TypeError`. -/
def pyIntOfOpt : Option Int → Except PyError Int
  | some n => Except.ok n
  | none => Except.error PyError.typeError

/-- Case-insensitive status comparison of `get_members_by_status`:
`parsed.get('status', '').lower() == status.lower()`. -/
def statusMatches (p : ParsedMember) (s : Str) : Bool :=
  toLowerS (p.status.getD []) = toLowerS s

/-- Lookup in a Python dict modelled as an insertion-ordered association
list. -/
def lookupA (dict : List (Str × α)) (k : Str) : Option α :=
  match dict with
  | [] => none
  | (k', v) :: rest => if k' = k then some v else lookupA rest k

/-- In-place update of an existing key of a Python dict (position is kept). -/
def updateA (dict : List (Str × α)) (k : Str) (v : α) : List (Str × α) :=
  match dict with
  | [] => []
  | (k', v') :: rest =>
    if k' = k then (k', v) :: rest else (k', v') :: updateA rest k v

/-- One scan step of `get_members_by_status`: keep the document only when its
decoded status matches the query, then keep the most recently modified match per id. -/
def gmbsStep (s : Str) (dict : List (Str × ParsedMember × Nat)) (doc : Doc) :
    List (Str × ParsedMember × Nat) :=
  match parseDoc doc with
  | none => dict
  | some p =>
    if statusMatches p s then
      match lookupA dict p.id with
      | none => dict ++ [(p.id, p, doc.mtime)]
      | some (_, t) => if doc.mtime > t then updateA dict p.id (p, doc.mtime) else dict
    else dict

/-- The `member_dict` built by the scan loop of `get_members_by_status`. -/
def gmbsFold (docs : List Doc) (s : Str) : List (Str × ParsedMember × Nat) :=
  docs.foldl (gmbsStep s) []

/-- Loop invariant of the scan of `get_members_by_status`, relating the
`member_dict` under construction to the documents already processed: keys are
unique, every stored entry is the decode of an already-processed document
whose parsed id is the key, whose modification time is the stored one and
whose status matches; every processed matching decode has its id in the
dictionary; and every stored entry's time dominates the modification time of
every processed matching document with the same id. -/
def gmbsInv (s : Str) (processed : List Doc)
    (dict : List (Str × ParsedMember × Nat)) : Prop :=
  (dict.map Prod.fst).Nodup
  ∧ (∀ e ∈ dict, ∃ d ∈ processed, parseDoc d = some e.2.1 ∧ e.2.1.id = e.1
      ∧ d.mtime = e.2.2 ∧ statusMatches e.2.1 s = true)
  ∧ (∀ d ∈ processed, ∀ q, parseDoc d = some q → statusMatches q s = true →
      q.id ∈ dict.map Prod.fst)
  ∧ (∀ e ∈ dict, ∀ d ∈ processed, ∀ q, parseDoc d = some q → q.id = e.1 →
      statusMatches q s = true → d.mtime ≤ e.2.2)

/-- Stable insertion into a list sorted by modification time descending. -/
def insertByMtimeDesc (x : Str × ParsedMember × Nat) :
    List (Str × ParsedMember × Nat) → List (Str × ParsedMember × Nat)
  | [] => [x]
  | y :: ys =>
    if y.2.2 ≥ x.2.2 then y :: insertByMtimeDesc x ys else x :: y :: ys

/-- Python `sorted(items, key=mtime, reverse=True)`: stable, descending. -/
def sortByMtimeDesc (l : List (Str × ParsedMember × Nat)) :
    List (Str × ParsedMember × Nat) :=
  l.foldr insertByMtimeDesc []

/-- The deduplicated, sorted entries of `get_members_by_status`. -/
def getMembersByStatusEntries (docs : List Doc) (s : Str) :
    List (Str × ParsedMember × Nat) :=
  sortByMtimeDesc (gmbsFold docs s)

/-- Formatted output of `get_members_by_status`.  The line builder indexes
`parsed['status']` directly, which raises `KeyError` when the status key is
absent (only reachable for a query matching the empty status). -/
def getMembersByStatus (docs : List Doc) (s : Str) : Except PyError Str :=
  (getMembersByStatusEntries docs s).foldlM
    (fun (acc : Str) e =>
      match e.2.1.status with
      | some st =>
        Except.ok (acc ++ (if acc = [] then [] else ['\n']) ++ e.2.1.id
          ++ strL " — " ++ e.2.1.name ++ strL " — Status: " ++ st)
      | none => Except.error PyError.keyError) []

/-- Summary rows emitted by `get_pending_members`. -/
structure PendingSummary where
  id : Str
  name : Str
  gender : Str
  date : Str
  path : Str
deriving DecidableEq, Repr

/-- `get_pending_members`: full scan, keep decoded documents whose status is
`pending` case-insensitively; no deduplication.  The source writes
`data.get('id', 'Unknown')` and likewise for name and gender, but those
defaults are dead code: `parse_member_from_pdf` always initialises the `id`,
`name` and `gender` keys (to the empty string, with the filename fallback for
`id`), so `get` always returns the stored value — a document with no Gender
line yields the empty string, never `Unknown`. -/
def getPendingMembers (docs : List Doc) : List PendingSummary :=
  docs.foldl
    (fun acc doc =>
      match parseDoc doc with
      | none => acc
      | some p =>
        if toLowerS (p.status.getD []) = strL "pending" then
          acc ++ [{ id := p.id,
                    name := p.name,
                    gender := p.gender,
                    date := pyShowOptInt p.day ++ strL "/" ++ pyShowOptInt p.month
                      ++ strL "/" ++ pyShowOptInt p.year,
                    path := doc.path }]
        else acc) []

/-- `update_member_status`: reload the newest record for the id, then rebuild
a `Member` with the new status.  `int(data.get('day', 1))` sees the stored
Python `None` (the key is present) and raises `TypeError` when the Join Date
line was never parsed; `membership_months` genuinely defaults because its key
is absent. -/
def updateMemberStatus (docs : List Doc) (photos : Str → Option Str)
    (memberId : Str) (newStatus : Str) : Except PyError Member := do
  match getMemberById docs photos memberId with
  | none => Except.error PyError.valueError
  | some data =>
    let day ← pyIntOfOpt data.day
    let month ← pyIntOfOpt data.month
    let year ← pyIntOfOpt data.year
    let mm ← pyIntOfOpt (some (data.membership_months.getD 1))
    Except.ok
      { id := data.id, name := data.name, phone := data.phone,
        blood := data.blood, gender := data.gender, cnic := data.cnic,
        day := day, month := month, year := year,
        membership_months := mm, package := data.package,
        end_date := data.end_date, status := newStatus,
        photo_path := data.photo_path, fingerprint_data := none }

/-! ## Search worker (`src/workers/search_worker.py`) -/

/-- Dictionary emitted by `SearchWorker.run`: the plain search result carries
no `access_denied` key (falsy), the denial carries an empty match list and no
parsed record. -/
structure WorkerResult where
  matchList : List Doc
  parsed : Option ParsedMember
  access_denied : Bool
deriving DecidableEq, Repr

/-- Normalisation of the caller gender in `SearchWorker.run`:
`str(self.user_gender).strip().lower() if self.user_gender else ""`. -/
def genderNorm : Option Str → Str
  | some g => if g ≠ [] then toLowerS (trimS g) else []
  | none => []

/-- `SearchWorker.run`: perform the search, then for a non-admin caller with a
nonempty bound gender compare it against the best match's gender and replace a
mismatching result with an access-denied outcome. -/
def runSearchWorker (docs : List Doc) (photos : Str → Option Str)
    (query : Str) (isAdmin : Bool) (userGender : Option Str) : WorkerResult :=
  let result := searchMembers docs photos query
  if !isAdmin then
    match result.parsed with
    | some p =>
      let memberGender := toLowerS (trimS p.gender)
      let myGender := genderNorm userGender
      if myGender ≠ [] ∧ memberGender ≠ myGender then
        { matchList := [], parsed := none, access_denied := true }
      else
        { matchList := result.matchList, parsed := result.parsed, access_denied := false }
    | none =>
      { matchList := result.matchList, parsed := result.parsed, access_denied := false }
  else
    { matchList := result.matchList, parsed := result.parsed, access_denied := false }

/-! ## Path scheme and saving (`src/services/member_service.py`,
`src/core/utils.py`) -/

/-- Filesystem paths are segment lists relative to an abstract root. -/
abbrev FPath := List Str

/-- Filesystem state touched by `save_new_member`: existing directories,
existing files, and the appended monthly log lines. -/
structure FS where
  dirs : List FPath := []
  files : List FPath := []
  logs : List (FPath × Str) := []
deriving DecidableEq, Repr

/-- `month_name(m)` = `datetime.date(1900, m, 1).strftime("%B")`.  The source
raises `ValueError` outside 1–12; callers only pass valid months, and the
model returns the empty string there. -/
def monthName (m : Int) : Str :=
  if m = 1 then strL "January" else if m = 2 then strL "February"
  else if m = 3 then strL "March" else if m = 4 then strL "April"
  else if m = 5 then strL "May" else if m = 6 then strL "June"
  else if m = 7 then strL "July" else if m = 8 then strL "August"
  else if m = 9 then strL "September" else if m = 10 then strL "October"
  else if m = 11 then strL "November" else if m = 12 then strL "December"
  else []

/-- `Path.mkdir(parents=True, exist_ok=True)`: create every missing nonempty
prefix of the path. -/
def mkdirParents (fs : FS) (p : FPath) : FS :=
  { fs with dirs := fs.dirs ++ (p.inits.filter fun q =>
      decide (q ≠ []) && decide (q ∉ fs.dirs)) }

/-- Python `str.endswith(p)`. -/
def endsWithS (p s : Str) : Bool := startsWithS p.reverse s.reverse

/-- Entries directly inside `base` whose name matches `*.pdf`
(`base.glob("*.pdf")` lists matching files and directories). -/
def globPdfEntries (fs : FS) (base : FPath) : List FPath :=
  (fs.files ++ fs.dirs).filter fun f =>
    decide (f.dropLast = base) && endsWithS (strL ".pdf") (f.getLast?.getD [])

/-- Number of immediate subdirectories of `base`
(`len([d for d in base.iterdir() if d.is_dir()])`). -/
def countSubdirs (fs : FS) (base : FPath) : Nat :=
  (fs.dirs.filter fun d => decide (d.dropLast = base)).length

/-- File creation (`canvas.save()` writing the PDF). -/
def addFile (fs : FS) (p : FPath) : FS :=
  if p ∈ fs.files then fs else { fs with files := fs.files ++ [p] }

/-- The `Gym Data / Year / Month / Day / MemberID` base folder computed by
`save_new_member`. -/
def saveBase (root : FPath) (m : Member) : FPath :=
  root ++ [intToStr m.year, monthName m.month, format02 m.day, m.id]

/-- The monthly log line
`f"{id} — {name} — {day:02d}/{month:02d}/{year} — {status}"`. -/
def monthlyLogEntry (m : Member) : Str :=
  m.id ++ strL " — " ++ m.name ++ strL " — " ++ format02 m.day ++ strL "/"
    ++ format02 m.month ++ strL "/" ++ intToStr m.year ++ strL " — " ++ m.status

/-- `save_new_member`: build the date-partitioned base folder, detect
re-admission by the presence of a PDF directly in the id folder, target
`ReAdmission_{count+1}` counting existing immediate subfolders, write the PDF
(via `create_member_pdf`, which first ensures the parent folder), and append
the monthly log line.  Returns the new state and the saved path. -/
def saveNewMember (root : FPath) (fs : FS) (m : Member) : FS × FPath :=
  let base := saveBase root m
  let fs1 := mkdirParents fs base
  let existing := globPdfEntries fs1 base
  let next :=
    if existing.isEmpty then (fs1, base ++ [m.id ++ strL ".pdf"])
    else
      let count := countSubdirs fs1 base + 1
      let reDir := base ++ [strL "ReAdmission_" ++ natToStr count]
      (mkdirParents fs1 reDir, reDir ++ [m.id ++ strL ".pdf"])
  let fs2 := next.1
  let savePath := next.2
  let fs3 := addFile (mkdirParents fs2 savePath.dropLast) savePath
  let logPath := root ++ [intToStr m.year, monthName m.month, strL "monthly_members.txt"]
  let fs4 := mkdirParents fs3 logPath.dropLast
  let fs5 := { fs4 with logs := fs4.logs ++ [(logPath, monthlyLogEntry m)] }
  (fs5, savePath)

/-! ## Date arithmetic (`src/core/utils.py`) -/

/-- Calendar dates as used by `add_months` (Python `datetime.date`). -/
structure PyDate where
  year : Nat
  month : Nat
  day : Nat
deriving DecidableEq, Repr

/-- Gregorian leap-year rule used by `calendar.monthrange`. -/
def isLeap (y : Nat) : Bool :=
  y % 4 = 0 && (y % 100 ≠ 0 || y % 400 = 0)

/-- Number of days in a month (`calendar.monthrange(year, month)[1]`). -/
def daysInMonth (y m : Nat) : Nat :=
  if m = 2 then (if isLeap y then 29 else 28)
  else if m = 4 ∨ m = 6 ∨ m = 9 ∨ m = 11 then 30
  else 31

/-- A valid `datetime.date`. -/
def validDate (d : PyDate) : Prop :=
  1 ≤ d.month ∧ d.month ≤ 12 ∧ 1 ≤ d.day ∧ d.day ≤ daysInMonth d.year d.month

instance (d : PyDate) : Decidable (validDate d) := by
  unfold validDate; infer_instance

/-- `add_months(start_date, months)`: month arithmetic with year rollover and
day clamped to the length of the target month. -/
def addMonths (d : PyDate) (months : Nat) : PyDate :=
  let m0 := d.month - 1 + months
  let y := d.year + m0 / 12
  let m := m0 % 12 + 1
  { year := y, month := m, day := min d.day (daysInMonth y m) }

/-! ## Attendance analytics (`src/ai_module/analytics.py`) -/

/-- Timestamp with the fields of `datetime.datetime` that the log stores. -/
structure PyDateTime where
  year : Nat
  month : Nat
  day : Nat
  hour : Nat
  minute : Nat
  second : Nat
deriving DecidableEq, Repr

/-- Days before January 1st of `y` in the proleptic Gregorian calendar
(the ordinal arithmetic behind `datetime` subtraction). -/
def daysBeforeYear (y : Nat) : Nat :=
  365 * (y - 1) + (y - 1) / 4 - (y - 1) / 100 + (y - 1) / 400

/-- Days before the first of `m` within year `y`. -/
def daysBeforeMonth (y m : Nat) : Nat :=
  ((List.range (m - 1)).map fun i => daysInMonth y (i + 1)).sum

/-- Seconds since the proleptic epoch, the quantity `datetime` subtraction
measures. -/
def toSecs (t : PyDateTime) : Nat :=
  (daysBeforeYear t.year + daysBeforeMonth t.year t.month + (t.day - 1)) * 86400
    + t.hour * 3600 + t.minute * 60 + t.second

/-- A piece of a timestamp: between 1 and `maxLen` digit characters. -/
def digitField (s : Str) (maxLen : Nat) : Option Nat :=
  if s ≠ [] ∧ s.length ≤ maxLen ∧ s.all Char.isDigit then some (digitsVal s)
  else none

/-- Model of `datetime.datetime.strptime(s, "%Y-%m-%d %H:%M:%S")`: a
four-digit year, dash-separated 1–2 digit month and day, a space, and
colon-separated 1–2 digit hour, minute and second, all validated exactly as
`datetime` validates them; `none` models `ValueError`. -/
def parseTimestamp (s : Str) : Option Nat :=
  match splitAllCh ' ' s with
  | [datePart, timePart] =>
    match splitAllCh '-' datePart, splitAllCh ':' timePart with
    | [ys, ms, ds], [hs, mins, secs] =>
      match digitField ys 4, digitField ms 2, digitField ds 2,
            digitField hs 2, digitField mins 2, digitField secs 2 with
      | some y, some mo, some d, some h, some mi, some sec =>
        if ys.length = 4 ∧ 1 ≤ y ∧ 1 ≤ mo ∧ mo ≤ 12 ∧ 1 ≤ d ∧
            d ≤ daysInMonth y mo ∧ h ≤ 23 ∧ mi ≤ 59 ∧ sec ≤ 59 then
          some (toSecs { year := y, month := mo, day := d,
                         hour := h, minute := mi, second := sec })
        else none
      | _, _, _, _, _, _ => none
    | _, _ => none
  | _ => none

/-- One iteration of the scan of `get_churn_risk`: rows of other members and
unparsable timestamps are skipped, and `dt > last_visit` only replaces the
running maximum on strict increase. -/
def lastVisitStep (memberId : Str) (acc : Option Nat) (row : Str × Str) :
    Option Nat :=
  if row.1 = memberId then
    match parseTimestamp row.2 with
    | some t =>
      match acc with
      | none => some t
      | some u => if t > u then some t else acc
    | none => acc
  else acc

/-- The scan of `get_churn_risk` keeping the maximum parsable timestamp of
the given member. -/
def lastVisit (data : List (Str × Str)) (memberId : Str) : Option Nat :=
  data.foldl (lastVisitStep memberId) none

/-- `GymAI.get_churn_risk` with the wall clock (`datetime.datetime.now()`)
passed explicitly as seconds. -/
def getChurnRisk (now : Int) (data : List (Str × Str)) (memberId : Str) : Str :=
  match lastVisit data memberId with
  | none => strL "No attendance history."
  | some t =>
    let daysSince := Int.fdiv (now - (t : Int)) 86400
    if daysSince > 21 then strL "High Risk (Absent 3+ weeks)"
    else if daysSince > 14 then strL "Medium Risk (Absent 2 weeks)"
    else strL "Low Risk (Active)"

/-- Field values covered by the round-trip property: non-empty, colon-free,
newline-free, and invariant under stripping (no leading or trailing
whitespace). -/
def goodVal (v : Str) : Prop :=
  v ≠ [] ∧ (∀ c ∈ v, c ≠ ':') ∧ (∀ c ∈ v, c ≠ '\n') ∧ trimS v = v

instance (v : Str) : Decidable (goodVal v) := by
  unfold goodVal; infer_instance

/-- Concrete stored document: a female member, used to evaluate the worker
claims on concrete inputs. -/
def exDocF : Doc :=
  { stem := strL "F1", path := strL "p",
    text := some (strL "Id: F1\nGender: Female"), mtime := 5 }

/-- Concrete stored document: older record of id M1 with status Active. -/
def exDocOld : Doc :=
  { stem := strL "M1", path := strL "old",
    text := some (strL "Id: M1\nStatus: Active"), mtime := 1 }

/-- Concrete stored document: newer record of id M1 with status Banned. -/
def exDocNew : Doc :=
  { stem := strL "M1", path := strL "new",
    text := some (strL "Id: M1\nStatus: Banned"), mtime := 2 }

/-- Concrete stored document: a second, later record of id M1 that is also
Active, used to exercise the keep-latest-match rule of the status listing. -/
def exDocNewActive : Doc :=
  { stem := strL "M1", path := strL "new2",
    text := some (strL "Id: M1\nStatus: Active"), mtime := 2 }

/-- Concrete stored document: id M9, status Pending, and no Join Date line,
so its decode leaves the date fields as Python None. -/
def exDocNoDate : Doc :=
  { stem := strL "M9", path := strL "nd",
    text := some (strL "Id: M9\nName: Sam\nStatus: Pending"), mtime := 3 }

/-- Concrete stored document: name John Smith, older. -/
def exDocJohn1 : Doc :=
  { stem := strL "A1", path := strL "a",
    text := some (strL "Id: A1\nName: John Smith"), mtime := 1 }

/-- Concrete stored document: name Johnny, different id, newer. -/
def exDocJohn2 : Doc :=
  { stem := strL "B2", path := strL "b",
    text := some (strL "Id: B2\nName: Johnny"), mtime := 9 }

/-- Concrete member used to exercise `save_new_member`. -/
def exMember : Member :=
  { id := strL "M1", name := strL "Sam", phone := strL "1", blood := strL "B",
    gender := strL "M", cnic := strL "4", day := 5, month := 2, year := 2020,
    membership_months := 1, package := strL "G", end_date := some (strL "x"),
    status := strL "Pending" }

/-! ## General lemmas about the string model -/

theorem toLowerS_append (a b : Str) :
    toLowerS (a ++ b) = toLowerS a ++ toLowerS b :=
  List.map_append _ a b

theorem startsWithS_append_left (p a b : Str) (h : p.length ≤ a.length) :
    startsWithS p (a ++ b) = startsWithS p a := by
  induction p generalizing a with
  | nil => simp [startsWithS]
  | cons x ps ih =>
    cases a with
    | nil => simp at h
    | cons y as =>
      simp only [List.cons_append, startsWithS]
      by_cases hxy : x = y
      · simp only [hxy, if_pos rfl]
        exact ih as (by simpa using h)
      · simp [hxy]

theorem startsWithS_take_false (p a b : Str)
    (h : startsWithS (p.take a.length) a = false) :
    startsWithS p (a ++ b) = false := by
  induction p generalizing a with
  | nil => simp [startsWithS, List.take_nil] at h
  | cons x ps ih =>
    cases a with
    | nil => simp [startsWithS] at h
    | cons y as =>
      simp only [List.length_cons, List.take_succ_cons, startsWithS,
        List.cons_append] at h ⊢
      by_cases hxy : x = y
      · simp only [hxy, if_pos rfl] at h ⊢
        exact ih as h
      · simp [hxy]

theorem dropWhile_eq_self_of_head (p : Char → Bool) (l : Str)
    (h : ∀ c, l.head? = some c → p c = false) : l.dropWhile p = l := by
  cases l with
  | nil => rfl
  | cons a l => simp [List.dropWhile_cons, h a rfl]

theorem trimS_eq_self (s : Str) (h1 : ∀ c, s.head? = some c → isWs c = false)
    (h2 : ∀ c, s.getLast? = some c → isWs c = false) : trimS s = s := by
  unfold trimS
  rw [dropWhile_eq_self_of_head _ _ h1,
    dropWhile_eq_self_of_head _ _ (fun c hc => h2 c (by rwa [← List.head?_reverse])),
    List.reverse_reverse]

theorem trimS_cons_ws (c : Char) (s : Str) (h : isWs c = true) :
    trimS (c :: s) = trimS s := by
  simp [trimS, List.dropWhile_cons, h]

theorem splitFirst_append_left (c : Char) (a b x y : Str)
    (h : splitFirst c a = some (x, y)) :
    splitFirst c (a ++ b) = some (x, y ++ b) := by
  induction a generalizing x y with
  | nil => simp [splitFirst] at h
  | cons d a ih =>
    simp only [splitFirst, List.cons_append] at h ⊢
    by_cases hdc : d = c
    · subst hdc
      simp only [if_pos rfl, Option.some.injEq, Prod.mk.injEq] at h ⊢
      obtain ⟨rfl, rfl⟩ := h
      simp
    · simp only [hdc, ite_false, Option.map_eq_some'] at h ⊢
      obtain ⟨⟨x', y'⟩, hsp, hxy⟩ := h
      simp only [Prod.mk.injEq] at hxy
      obtain ⟨rfl, rfl⟩ := hxy
      exact ⟨(x', y' ++ b), ih x' y' hsp, rfl⟩

theorem splitAllCh_no_sep (c : Char) (a : Str) (h : ∀ x ∈ a, x ≠ c) :
    splitAllCh c a = [a] := by
  induction a with
  | nil => rfl
  | cons d a ih =>
    have hd : d ≠ c := h d (by simp)
    simp [splitAllCh, hd, ih (fun x hx => h x (by simp [hx]))]

theorem splitAllCh_append_sep (c : Char) (a b : Str) (h : ∀ x ∈ a, x ≠ c) :
    splitAllCh c (a ++ c :: b) = a :: splitAllCh c b := by
  induction a with
  | nil => simp [splitAllCh]
  | cons d a ih =>
    have hd : d ≠ c := h d (by simp)
    simp [splitAllCh, hd, ih (fun x hx => h x (by simp [hx]))]

theorem splitWsAux_append_no_ws (a : Str) (h : ∀ x ∈ a, isWs x = false) :
    ∀ (s cur : Str), splitWsAux (a ++ s) cur = splitWsAux s (a.reverse ++ cur) := by
  induction a with
  | nil => intro s cur; simp
  | cons d a ih =>
    intro s cur
    have hd := h d (by simp)
    simp only [List.cons_append, splitWsAux, hd, Bool.false_eq_true, if_false,
      List.append_eq]
    rw [ih (fun x hx => h x (by simp [hx]))]
    simp [List.append_assoc]

theorem dchar_isDigit (d : Nat) (h : d < 10) : (dchar d).isDigit = true := by
  interval_cases d <;> decide

theorem dchar_toNat (d : Nat) (h : d < 10) : (dchar d).toNat - 48 = d := by
  interval_cases d <;> decide

theorem isDigit_not_ws (c : Char) (h : c.isDigit = true) : isWs c = false := by
  by_contra hw
  have hw' : c.isWhitespace = true := by
    revert hw; unfold isWs; cases c.isWhitespace <;> simp
  simp only [Char.isWhitespace, Bool.or_eq_true, decide_eq_true_eq] at hw'
  rcases hw' with ((rfl | rfl) | rfl) | rfl <;> simp [Char.isDigit] at h

theorem isDigit_ne (c x : Char) (h : c.isDigit = true) (hx : x.isDigit = false) :
    c ≠ x := by
  intro he; rw [he] at h; rw [h] at hx; exact Bool.noConfusion hx

theorem digitsVal_concat (a : Str) (x : Char) :
    digitsVal (a ++ [x]) = digitsVal a * 10 + (x.toNat - 48) := by
  simp [digitsVal, List.foldl_append]

theorem digitsVal_cons_zero (s : Str) : digitsVal ('0' :: s) =
    digitsVal s := by
  have : (0 : Nat) * 10 + ('0'.toNat - 48) = 0 := by decide
  simp [digitsVal, List.foldl_cons, this]

theorem natToStrAux_spec (fuel : Nat) : ∀ n : Nat, n < fuel →
    natToStrAux fuel n ≠ [] ∧ (∀ c ∈ natToStrAux fuel n, c.isDigit = true)
      ∧ digitsVal (natToStrAux fuel n) = n := by
  induction fuel with
  | zero => intro n h; omega
  | succ fuel ih =>
    intro n h
    by_cases h10 : n < 10
    · refine ⟨by simp [natToStrAux, h10], ?_, ?_⟩
      · intro c hc
        simp only [natToStrAux, if_pos h10, List.mem_singleton] at hc
        subst hc
        exact dchar_isDigit n h10
      · simp only [natToStrAux, if_pos h10, digitsVal, List.foldl_cons,
          List.foldl_nil]
        rw [Nat.zero_mul, Nat.zero_add, dchar_toNat n h10]
    · have hrec : n / 10 < fuel := by omega
      obtain ⟨hne, hdig, hval⟩ := ih (n / 10) hrec
      simp only [natToStrAux, if_neg h10]
      refine ⟨by simp, ?_, ?_⟩
      · intro c hc
        rcases List.mem_append.1 hc with h1 | h2
        · exact hdig c h1
        · rw [List.mem_singleton] at h2
          subst h2
          exact dchar_isDigit _ (Nat.mod_lt _ (by omega))
      · rw [digitsVal_concat, hval, dchar_toNat _ (Nat.mod_lt _ (by omega))]
        omega

theorem natToStr_ne_nil (n : Nat) : natToStr n ≠ [] :=
  (natToStrAux_spec (n + 1) n (by omega)).1

theorem natToStr_digits (n : Nat) : ∀ c ∈ natToStr n, c.isDigit = true :=
  (natToStrAux_spec (n + 1) n (by omega)).2.1

theorem digitsVal_natToStr (n : Nat) : digitsVal (natToStr n) = n :=
  (natToStrAux_spec (n + 1) n (by omega)).2.2

theorem trimS_all_digits (s : Str) (h : ∀ c ∈ s, c.isDigit = true) :
    trimS s = s := by
  refine trimS_eq_self s (fun c hc => ?_) (fun c hc => ?_)
  · exact isDigit_not_ws c (h c (List.mem_of_mem_head? hc))
  · exact isDigit_not_ws c (h c (List.mem_of_mem_getLast? hc))

theorem pyInt_all_digits (s : Str) (hne : s ≠ [])
    (h : ∀ c ∈ s, c.isDigit = true) : pyInt s = some ((digitsVal s : Int)) := by
  obtain ⟨c, r, rfl⟩ := List.exists_cons_of_ne_nil hne
  have hc : c.isDigit = true := h c (by simp)
  have hcm : c ≠ '-' := isDigit_ne c '-' hc (by decide)
  have hcp : c ≠ '+' := isDigit_ne c '+' hc (by decide)
  unfold pyInt
  rw [trimS_all_digits _ h]
  have hall : (c :: r).all Char.isDigit = true := List.all_eq_true.2 h
  split
  · rename_i heq
    rw [List.cons.injEq] at heq
    exact absurd heq.1 hcm
  · rename_i heq
    rw [List.cons.injEq] at heq
    exact absurd heq.1 hcp
  · simp [hall]

theorem pyInt_natToStr (n : Nat) : pyInt (natToStr n) = some (n : Int) := by
  rw [pyInt_all_digits _ (natToStr_ne_nil n) (natToStr_digits n),
    digitsVal_natToStr]

theorem pyInt_zero_cons_natToStr (n : Nat) :
    pyInt ('0' :: natToStr n) = some (n : Int) := by
  have h : ∀ c ∈ '0' :: natToStr n, c.isDigit = true := by
    intro c hc
    rcases List.mem_cons.1 hc with rfl | hm
    · decide
    · exact natToStr_digits n c hm
  rw [pyInt_all_digits _ (by simp) h, digitsVal_cons_zero, digitsVal_natToStr]

theorem pyInt_neg_natToStr (n : Nat) :
    pyInt ('-' :: natToStr n) = some (-(n : Int)) := by
  have hdig := natToStr_digits n
  have hws : ∀ c ∈ '-' :: natToStr n, isWs c = false := by
    intro c hc
    rcases List.mem_cons.1 hc with rfl | hm
    · decide
    · exact isDigit_not_ws c (hdig c hm)
  have htrim : trimS ('-' :: natToStr n) = '-' :: natToStr n := by
    refine trimS_eq_self _ (fun c hc => ?_) (fun c hc => ?_)
    · exact hws c (List.mem_of_mem_head? hc)
    · exact hws c (List.mem_of_mem_getLast? hc)
  have hall : (natToStr n).all Char.isDigit = true := List.all_eq_true.2 hdig
  unfold pyInt
  rw [htrim]
  simp [natToStr_ne_nil n, hall, digitsVal_natToStr]

theorem pyInt_intToStr (i : Int) : pyInt (intToStr i) = some i := by
  unfold intToStr
  by_cases hi : i < 0
  · rw [if_pos hi, pyInt_neg_natToStr]
    congr 1
    omega
  · rw [if_neg hi, pyInt_natToStr]
    congr 1
    omega

theorem intToStr_length_two_of_neg (i : Int) (hi : i < 0) :
    2 ≤ (intToStr i).length := by
  unfold intToStr
  rw [if_pos hi]
  have := natToStr_ne_nil i.natAbs
  cases hn : natToStr i.natAbs with
  | nil => exact absurd hn this
  | cons c r => simp

theorem pyInt_format02 (i : Int) : pyInt (format02 i) = some i := by
  unfold format02
  by_cases hlen : (intToStr i).length < 2
  · rw [if_pos hlen]
    have hi : ¬ i < 0 := by
      intro hneg
      exact absurd hlen (by simpa using intToStr_length_two_of_neg i hneg)
    have : intToStr i = natToStr i.toNat := by unfold intToStr; rw [if_neg hi]
    rw [this, pyInt_zero_cons_natToStr]
    congr 1
    omega
  · rw [if_neg hlen]
    exact pyInt_intToStr i

theorem trimS_of_all_not_ws (s : Str) (h : ∀ c ∈ s, isWs c = false) :
    trimS s = s :=
  trimS_eq_self s (fun c hc => h c (List.mem_of_mem_head? hc))
    (fun c hc => h c (List.mem_of_mem_getLast? hc))

theorem trimS_append_token (a b : Str) (ha : a ≠ [])
    (hah : ∀ c ∈ a, isWs c = false)
    (hbl : ∀ c, b.getLast? = some c → isWs c = false) :
    trimS (a ++ b) = a ++ b := by
  refine trimS_eq_self _ (fun c hc => ?_) (fun c hc => ?_)
  · cases a with
    | nil => exact absurd rfl ha
    | cons x a' =>
      simp only [List.cons_append, List.head?_cons, Option.some.injEq] at hc
      exact hah c (by simp [← hc])
  · cases hb : b with
    | nil =>
      subst hb
      simp only [List.append_nil] at hc
      exact hah c (List.mem_of_mem_getLast? hc)
    | cons x b' =>
      subst hb
      rw [List.getLast?_append_of_ne_nil a (by simp)] at hc
      exact hbl c hc

theorem intToStr_ne_nil (i : Int) : intToStr i ≠ [] := by
  unfold intToStr
  split
  · simp
  · exact natToStr_ne_nil _

theorem format02_ne_nil (i : Int) : format02 i ≠ [] := by
  by_cases h : (intToStr i).length < 2
  · simp [format02, h]
  · simpa [format02, h] using intToStr_ne_nil i

theorem intToStr_chars (i : Int) :
    ∀ c ∈ intToStr i, c.isDigit = true ∨ c = '-' := by
  unfold intToStr
  split
  · intro c hc
    rcases List.mem_cons.1 hc with rfl | hm
    · right; rfl
    · left; exact natToStr_digits _ c hm
  · intro c hc
    left; exact natToStr_digits _ c hc

theorem format02_chars (i : Int) :
    ∀ c ∈ format02 i, c.isDigit = true ∨ c = '-' := by
  intro c hc
  by_cases h : (intToStr i).length < 2
  · simp only [format02, h, if_true] at hc
    rcases List.mem_cons.1 hc with rfl | hm
    · left; decide
    · exact intToStr_chars i c hm
  · simp only [format02, h, if_false] at hc
    exact intToStr_chars i c hc

theorem numChar_not_ws (c : Char) (h : c.isDigit = true ∨ c = '-') :
    isWs c = false := by
  rcases h with h | rfl
  · exact isDigit_not_ws c h
  · decide

theorem numChar_ne (c : Char) (h : c.isDigit = true ∨ c = '-') (x : Char)
    (hx1 : x.isDigit = false) (hx2 : ':' = x ∨ '/' = x ∨ '\n' = x ∨ ' ' = x) :
    c ≠ x := by
  rcases h with h | rfl
  · exact isDigit_ne c x h hx1
  · rcases hx2 with rfl | rfl | rfl | rfl <;> decide

theorem splitWsAux_ws_cons (c : Char) (s cur : Str) (hc : isWs c = true)
    (hcur : cur ≠ []) :
    splitWsAux (c :: s) cur = cur.reverse :: splitWsAux s [] := by
  simp [splitWsAux, hc, hcur]

theorem processLine_id (d : ParsedMember) (v : Str) (hv : trimS v = v) :
    processLine d (strL "Id: " ++ v) = { d with id := v } := by
  have hsplit : splitFirst ':' ((strL "Id: " : Str) ++ v)
      = some (strL "Id", strL " " ++ v) :=
    splitFirst_append_left ':' (strL "Id: ") v (strL "Id") (strL " ") (by decide)
  simp +decide [processLine, procStd, packageStep, joinDateStep, membershipStep,
    endDateStep, statusStep, stdLabel, setStd, toLowerS_append, hsplit,
    startsWithS_append_left, startsWithS_take_false,
    show (strL " " : Str) ++ v = ' ' :: v from rfl,
    show trimS (' ' :: v) = trimS v from trimS_cons_ws ' ' v (by decide), hv]

theorem processLine_name (d : ParsedMember) (v : Str) (hv : trimS v = v) :
    processLine d (strL "Name: " ++ v) = { d with name := v } := by
  have hsplit : splitFirst ':' ((strL "Name: " : Str) ++ v)
      = some (strL "Name", strL " " ++ v) :=
    splitFirst_append_left ':' (strL "Name: ") v (strL "Name") (strL " ") (by decide)
  simp +decide [processLine, procStd, packageStep, joinDateStep, membershipStep,
    endDateStep, statusStep, stdLabel, setStd, toLowerS_append, hsplit,
    startsWithS_append_left, startsWithS_take_false,
    show (strL " " : Str) ++ v = ' ' :: v from rfl,
    show trimS (' ' :: v) = trimS v from trimS_cons_ws ' ' v (by decide), hv]

theorem processLine_phone (d : ParsedMember) (v : Str) (hv : trimS v = v) :
    processLine d (strL "Phone: " ++ v) = { d with phone := v } := by
  have hsplit : splitFirst ':' ((strL "Phone: " : Str) ++ v)
      = some (strL "Phone", strL " " ++ v) :=
    splitFirst_append_left ':' (strL "Phone: ") v (strL "Phone") (strL " ") (by decide)
  simp +decide [processLine, procStd, packageStep, joinDateStep, membershipStep,
    endDateStep, statusStep, stdLabel, setStd, toLowerS_append, hsplit,
    startsWithS_append_left, startsWithS_take_false,
    show (strL " " : Str) ++ v = ' ' :: v from rfl,
    show trimS (' ' :: v) = trimS v from trimS_cons_ws ' ' v (by decide), hv]

theorem processLine_blood (d : ParsedMember) (v : Str) (hv : trimS v = v) :
    processLine d (strL "Blood: " ++ v) = { d with blood := v } := by
  have hsplit : splitFirst ':' ((strL "Blood: " : Str) ++ v)
      = some (strL "Blood", strL " " ++ v) :=
    splitFirst_append_left ':' (strL "Blood: ") v (strL "Blood") (strL " ") (by decide)
  simp +decide [processLine, procStd, packageStep, joinDateStep, membershipStep,
    endDateStep, statusStep, stdLabel, setStd, toLowerS_append, hsplit,
    startsWithS_append_left, startsWithS_take_false,
    show (strL " " : Str) ++ v = ' ' :: v from rfl,
    show trimS (' ' :: v) = trimS v from trimS_cons_ws ' ' v (by decide), hv]

theorem processLine_gender (d : ParsedMember) (v : Str) (hv : trimS v = v) :
    processLine d (strL "Gender: " ++ v) = { d with gender := v } := by
  have hsplit : splitFirst ':' ((strL "Gender: " : Str) ++ v)
      = some (strL "Gender", strL " " ++ v) :=
    splitFirst_append_left ':' (strL "Gender: ") v (strL "Gender") (strL " ") (by decide)
  simp +decide [processLine, procStd, packageStep, joinDateStep, membershipStep,
    endDateStep, statusStep, stdLabel, setStd, toLowerS_append, hsplit,
    startsWithS_append_left, startsWithS_take_false,
    show (strL " " : Str) ++ v = ' ' :: v from rfl,
    show trimS (' ' :: v) = trimS v from trimS_cons_ws ' ' v (by decide), hv]

theorem processLine_cnic (d : ParsedMember) (v : Str) (hv : trimS v = v) :
    processLine d (strL "Cnic: " ++ v) = { d with cnic := v } := by
  have hsplit : splitFirst ':' ((strL "Cnic: " : Str) ++ v)
      = some (strL "Cnic", strL " " ++ v) :=
    splitFirst_append_left ':' (strL "Cnic: ") v (strL "Cnic") (strL " ") (by decide)
  simp +decide [processLine, procStd, packageStep, joinDateStep, membershipStep,
    endDateStep, statusStep, stdLabel, setStd, toLowerS_append, hsplit,
    startsWithS_append_left, startsWithS_take_false,
    show (strL " " : Str) ++ v = ' ' :: v from rfl,
    show trimS (' ' :: v) = trimS v from trimS_cons_ws ' ' v (by decide), hv]

theorem processLine_package (d : ParsedMember) (v : Str) (hv : trimS v = v) :
    processLine d (strL "Package: " ++ v) = { d with package := v } := by
  have hsplit : splitFirst ':' ((strL "Package: " : Str) ++ v)
      = some (strL "Package", strL " " ++ v) :=
    splitFirst_append_left ':' (strL "Package: ") v (strL "Package") (strL " ") (by decide)
  simp +decide [processLine, procStd, packageStep, joinDateStep, membershipStep,
    endDateStep, statusStep, stdLabel, setStd, toLowerS_append, hsplit,
    startsWithS_append_left, startsWithS_take_false,
    show (strL " " : Str) ++ v = ' ' :: v from rfl,
    show trimS (' ' :: v) = trimS v from trimS_cons_ws ' ' v (by decide), hv]

theorem processLine_endDate (d : ParsedMember) (v : Str) (hv : trimS v = v) :
    processLine d (strL "End Date: " ++ v) = { d with end_date := some v } := by
  have hsplit : splitFirst ':' ((strL "End Date: " : Str) ++ v)
      = some (strL "End Date", strL " " ++ v) :=
    splitFirst_append_left ':' (strL "End Date: ") v (strL "End Date") (strL " ") (by decide)
  simp +decide [processLine, procStd, packageStep, joinDateStep, membershipStep,
    endDateStep, statusStep, stdLabel, setStd, toLowerS_append, hsplit,
    startsWithS_append_left, startsWithS_take_false,
    show (strL " " : Str) ++ v = ' ' :: v from rfl,
    show trimS (' ' :: v) = trimS v from trimS_cons_ws ' ' v (by decide), hv]

theorem processLine_status (d : ParsedMember) (v : Str) (hv : trimS v = v) :
    processLine d (strL "Status: " ++ v) = { d with status := some v } := by
  have hsplit : splitFirst ':' ((strL "Status: " : Str) ++ v)
      = some (strL "Status", strL " " ++ v) :=
    splitFirst_append_left ':' (strL "Status: ") v (strL "Status") (strL " ") (by decide)
  simp +decide [processLine, procStd, packageStep, joinDateStep, membershipStep,
    endDateStep, statusStep, stdLabel, setStd, toLowerS_append, hsplit,
    startsWithS_append_left, startsWithS_take_false,
    show (strL " " : Str) ++ v = ' ' :: v from rfl,
    show trimS (' ' :: v) = trimS v from trimS_cons_ws ' ' v (by decide), hv]

theorem processLine_header (d : ParsedMember) (v : Str) :
    processLine d (strL "💪 SOLID GYM (" ++ v) = d := by
  simp +decide [processLine, procStd, packageStep, joinDateStep, membershipStep,
    endDateStep, statusStep, stdLabel, toLowerS_append,
    startsWithS_append_left, startsWithS_take_false]

theorem processLine_footer_creator (d : ParsedMember) :
    processLine d (strL "Created by: Sayyam Shahbaz") = d := by
  simp +decide [processLine, procStd, packageStep, joinDateStep, membershipStep,
    endDateStep, statusStep, stdLabel]

theorem processLine_footer_linkedin (d : ParsedMember) :
    processLine d
      (strL "LinkedIn: https://www.linkedin.com/in/sayyam-shahbaz-05894a194/") = d := by
  simp +decide [processLine, procStd, packageStep, joinDateStep, membershipStep,
    endDateStep, statusStep, stdLabel]

theorem processLine_footer_instagram (d : ParsedMember) :
    processLine d
      (strL "Instagram: https://www.instagram.com/safderkhan0800_/") = d := by
  simp +decide [processLine, procStd, packageStep, joinDateStep, membershipStep,
    endDateStep, statusStep, stdLabel]

theorem joinDateFields_encode (di mi yi : Int) :
    joinDateFields (strL "Join Date: "
      ++ (format02 di ++ '/' :: (format02 mi ++ '/' :: intToStr yi)))
      = some (di, mi, yi) := by
  have hchars : ∀ c ∈ format02 di ++ '/' :: (format02 mi ++ '/' :: intToStr yi),
      (c.isDigit = true ∨ c = '-') ∨ c = '/' := by
    intro c hc
    rcases List.mem_append.1 hc with h1 | h2
    · exact Or.inl (format02_chars di c h1)
    · rcases List.mem_cons.1 h2 with rfl | h3
      · exact Or.inr rfl
      · rcases List.mem_append.1 h3 with h4 | h5
        · exact Or.inl (format02_chars mi c h4)
        · rcases List.mem_cons.1 h5 with rfl | h6
          · exact Or.inr rfl
          · exact Or.inl (intToStr_chars yi c h6)
  have hnocolon : ∀ c ∈ ' ' :: (format02 di ++ '/' :: (format02 mi ++ '/' :: intToStr yi)),
      c ≠ ':' := by
    intro c hc
    rcases List.mem_cons.1 hc with rfl | h
    · decide
    · rcases hchars c h with hn | rfl
      · exact numChar_ne c hn ':' (by decide) (Or.inl rfl)
      · decide
  have hnws : ∀ c ∈ format02 di ++ '/' :: (format02 mi ++ '/' :: intToStr yi),
      isWs c = false := by
    intro c hc
    rcases hchars c hc with hn | rfl
    · exact numChar_not_ws c hn
    · decide
  have hsplit1 : splitAllCh ':' (strL "Join Date: "
      ++ (format02 di ++ '/' :: (format02 mi ++ '/' :: intToStr yi)))
      = [strL "Join Date", ' ' :: (format02 di ++ '/' :: (format02 mi ++ '/' :: intToStr yi))] := by
    rw [show (strL "Join Date: " : Str)
        ++ (format02 di ++ '/' :: (format02 mi ++ '/' :: intToStr yi))
        = strL "Join Date"
        ++ ':' :: (' ' :: (format02 di ++ '/' :: (format02 mi ++ '/' :: intToStr yi))) from rfl,
      splitAllCh_append_sep ':' _ _ (by decide),
      splitAllCh_no_sep ':' _ hnocolon]
  have htrim : trimS (' ' :: (format02 di ++ '/' :: (format02 mi ++ '/' :: intToStr yi)))
      = format02 di ++ '/' :: (format02 mi ++ '/' :: intToStr yi) := by
    rw [trimS_cons_ws ' ' _ (by decide), trimS_of_all_not_ws _ hnws]
  have hslash1 : ∀ c ∈ format02 di, c ≠ '/' := fun c hc =>
    numChar_ne c (format02_chars di c hc) '/' (by decide) (Or.inr (Or.inl rfl))
  have hslash2 : ∀ c ∈ format02 mi, c ≠ '/' := fun c hc =>
    numChar_ne c (format02_chars mi c hc) '/' (by decide) (Or.inr (Or.inl rfl))
  have hslash3 : ∀ c ∈ intToStr yi, c ≠ '/' := fun c hc =>
    numChar_ne c (intToStr_chars yi c hc) '/' (by decide) (Or.inr (Or.inl rfl))
  have hsplit2 : splitAllCh '/' (format02 di ++ '/' :: (format02 mi ++ '/' :: intToStr yi))
      = [format02 di, format02 mi, intToStr yi] := by
    rw [splitAllCh_append_sep '/' _ _ hslash1,
      splitAllCh_append_sep '/' _ _ hslash2,
      splitAllCh_no_sep '/' _ hslash3]
  unfold joinDateFields
  rw [hsplit1]
  simp only [List.get?]
  rw [htrim, hsplit2]
  simp [pyInt_format02, pyInt_intToStr]

theorem processLine_joinDate (d : ParsedMember) (di mi yi : Int) :
    processLine d (strL "Join Date: "
      ++ (format02 di ++ '/' :: (format02 mi ++ '/' :: intToStr yi)))
      = { d with day := some di, month := some mi, year := some yi } := by
  have hjdf := joinDateFields_encode di mi yi
  simp +decide [processLine, procStd, packageStep, joinDateStep, membershipStep,
    endDateStep, statusStep, stdLabel, toLowerS_append, hjdf,
    startsWithS_append_left, startsWithS_take_false]

theorem membershipValue_encode (n : Int) :
    membershipValue (strL "Membership: " ++ (intToStr n ++ strL " months"))
      = some n := by
  have hmon : ∀ c ∈ (strL " months" : Str), c ≠ ':' := by decide
  have hnocolon : ∀ c ∈ ' ' :: (intToStr n ++ strL " months"), c ≠ ':' := by
    intro c hc
    rcases List.mem_cons.1 hc with rfl | h
    · decide
    · rcases List.mem_append.1 h with h1 | h2
      · exact numChar_ne c (intToStr_chars n c h1) ':' (by decide) (Or.inl rfl)
      · exact hmon c h2
  have hsplit1 : splitAllCh ':' (strL "Membership: " ++ (intToStr n ++ strL " months"))
      = [strL "Membership", ' ' :: (intToStr n ++ strL " months")] := by
    rw [show (strL "Membership: " : Str) ++ (intToStr n ++ strL " months")
        = strL "Membership" ++ ':' :: (' ' :: (intToStr n ++ strL " months")) from rfl,
      splitAllCh_append_sep ':' _ _ (by decide),
      splitAllCh_no_sep ':' _ hnocolon]
  have htrim : trimS (' ' :: (intToStr n ++ strL " months"))
      = intToStr n ++ strL " months" := by
    rw [trimS_cons_ws ' ' _ (by decide)]
    exact trimS_append_token _ _ (intToStr_ne_nil n)
      (fun c hc => numChar_not_ws c (intToStr_chars n c hc))
      (fun c hc => by
        rw [show (strL " months" : Str).getLast? = some 's' from by decide] at hc
        cases hc
        decide)
  have hsplitws : splitWsS (intToStr n ++ strL " months")
      = [intToStr n, strL "months"] := by
    unfold splitWsS
    rw [show (strL " months" : Str) = ' ' :: strL "months" from rfl,
      splitWsAux_append_no_ws (intToStr n)
        (fun c hc => numChar_not_ws c (intToStr_chars n c hc)) (' ' :: strL "months") [],
      splitWsAux_ws_cons ' ' (strL "months") _ (by decide)
        (by simp [intToStr_ne_nil n])]
    simp
    decide
  unfold membershipValue
  rw [hsplit1]
  simp only [List.get?]
  rw [htrim, hsplitws]
  simp [pyInt_intToStr]

theorem processLine_membership (d : ParsedMember) (n : Int) :
    processLine d (strL "Membership: " ++ (intToStr n ++ strL " months"))
      = { d with membership_months := some n } := by
  have hmv := membershipValue_encode n
  simp +decide [processLine, procStd, packageStep, joinDateStep, membershipStep,
    endDateStep, statusStep, stdLabel, toLowerS_append, hmv,
    startsWithS_append_left, startsWithS_take_false]

theorem pySplitlinesAux_no_nl (l : Str) (h : ∀ c ∈ l, c ≠ '\n') :
    ∀ cur : Str, pySplitlinesAux l cur = [cur.reverse ++ l] := by
  induction l with
  | nil => intro cur; simp [pySplitlinesAux]
  | cons c rest ih =>
    intro cur
    have hc : c ≠ '\n' := h c (by simp)
    simp only [pySplitlinesAux, if_neg hc]
    rw [ih (fun x hx => h x (by simp [hx])) (c :: cur)]
    simp

theorem pySplitlinesAux_append_nl (l : Str) (h : ∀ c ∈ l, c ≠ '\n')
    (rest : Str) (hrest : rest ≠ []) :
    ∀ cur : Str, pySplitlinesAux (l ++ '\n' :: rest) cur
      = (cur.reverse ++ l) :: pySplitlinesAux rest [] := by
  induction l with
  | nil =>
    intro cur
    cases rest with
    | nil => exact absurd rfl hrest
    | cons r rs => simp [pySplitlinesAux]
  | cons c l ih =>
    intro cur
    have hc : c ≠ '\n' := h c (by simp)
    simp only [List.cons_append, pySplitlinesAux, if_neg hc, List.append_eq]
    rw [ih (fun x hx => h x (by simp [hx])) (c :: cur)]
    simp

theorem joinLines_ne_nil (x : Str) (xs : List Str) (hx : x ≠ []) :
    joinLines (x :: xs) ≠ [] := by
  cases xs with
  | nil => simpa [joinLines] using hx
  | cons y ys =>
    simp only [joinLines]
    intro hcontra
    rcases List.append_eq_nil.1 hcontra with ⟨_, h2⟩
    exact List.cons_ne_nil _ _ h2

theorem pySplitlines_joinLines (lines : List Str) (hne : lines ≠ [])
    (hnn : ∀ l ∈ lines, l ≠ [])
    (hnl : ∀ l ∈ lines, ∀ c ∈ l, c ≠ '\n') :
    pySplitlines (joinLines lines) = lines := by
  induction lines with
  | nil => exact absurd rfl hne
  | cons l ls ih =>
    cases ls with
    | nil =>
      have hl : l ≠ [] := hnn l (by simp)
      cases hl' : l with
      | nil => exact absurd hl' hl
      | cons c t =>
        subst hl'
        show pySplitlinesAux (c :: t) [] = [c :: t]
        rw [pySplitlinesAux_no_nl (c :: t) (hnl _ (by simp)) []]
        simp
    | cons l2 ls2 =>
      have hrest : joinLines (l2 :: ls2) ≠ [] :=
        joinLines_ne_nil l2 ls2 (hnn l2 (by simp))
      show pySplitlines (l ++ '\n' :: joinLines (l2 :: ls2)) = l :: l2 :: ls2
      have htext : (l ++ '\n' :: joinLines (l2 :: ls2)) ≠ [] := by
        intro hcontra
        rcases List.append_eq_nil.1 hcontra with ⟨_, h2⟩
        exact List.cons_ne_nil _ _ h2
      have hred : pySplitlines (l ++ '\n' :: joinLines (l2 :: ls2))
          = pySplitlinesAux (l ++ '\n' :: joinLines (l2 :: ls2)) [] := by
        cases hl : (l ++ '\n' :: joinLines (l2 :: ls2)) with
        | nil => exact absurd hl htext
        | cons c t => rfl
      rw [hred, pySplitlinesAux_append_nl l (hnl l (by simp)) _ hrest []]
      have haux : pySplitlinesAux (joinLines (l2 :: ls2)) []
          = pySplitlines (joinLines (l2 :: ls2)) := by
        cases hj : joinLines (l2 :: ls2) with
        | nil => exact absurd hj hrest
        | cons c t => rfl
      rw [haux, ih (by simp) (fun x hx => hnn x (by simp [hx]))
        (fun x hx => hnl x (by simp [hx]))]
      simp

theorem append_ne_nil_left (a b : Str) (h : a ≠ []) : a ++ b ≠ [] :=
  fun hc => h (List.append_eq_nil.1 hc).1


/-- C2 (amended): for every member record whose field values are non-empty,
colon-free, newline-free and equal to their whitespace-stripped form, decoding
the document produced by encoding the record reproduces every field of the
defined field set byte-for-byte (id, name, phone, blood, gender, cnic, join
date day/month/year, membership months, package, end date, status). -/
theorem decode_encode_roundtrip (m : Member) (ed stem : Str)
    (hed : m.end_date = some ed)
    (hid : goodVal m.id) (hname : goodVal m.name) (hphone : goodVal m.phone)
    (hblood : goodVal m.blood) (hgender : goodVal m.gender)
    (hcnic : goodVal m.cnic) (hpack : goodVal m.package)
    (hedv : goodVal ed) (hstat : goodVal m.status) :
    parseText stem (encodeText m) =
      { id := m.id, name := m.name, phone := m.phone, blood := m.blood,
        gender := m.gender, cnic := m.cnic, package := m.package,
        day := some m.day, month := some m.month, year := some m.year,
        membership_months := some m.membership_months,
        end_date := some ed, status := some m.status, photo_path := none } := by
  obtain ⟨hid1, hid2, hid3, hid4⟩ := hid
  obtain ⟨hname1, hname2, hname3, hname4⟩ := hname
  obtain ⟨hphone1, hphone2, hphone3, hphone4⟩ := hphone
  obtain ⟨hblood1, hblood2, hblood3, hblood4⟩ := hblood
  obtain ⟨hgender1, hgender2, hgender3, hgender4⟩ := hgender
  obtain ⟨hcnic1, hcnic2, hcnic3, hcnic4⟩ := hcnic
  obtain ⟨hpack1, hpack2, hpack3, hpack4⟩ := hpack
  obtain ⟨hedv1, hedv2, hedv3, hedv4⟩ := hedv
  obtain ⟨hstat1, hstat2, hstat3, hstat4⟩ := hstat
  have hnlf02 : ∀ i : Int, ∀ c ∈ format02 i, c ≠ '\n' := fun i c hc =>
    numChar_ne c (format02_chars i c hc) '\n' (by decide) (Or.inr (Or.inr (Or.inl rfl)))
  have hnlint : ∀ i : Int, ∀ c ∈ intToStr i, c ≠ '\n' := fun i c hc =>
    numChar_ne c (intToStr_chars i c hc) '\n' (by decide) (Or.inr (Or.inr (Or.inl rfl)))
  have henc : encodeLines m =
      [ strL "💪 SOLID GYM (" ++ (m.id ++ strL ")"),
        strL "Id: " ++ m.id,
        strL "Name: " ++ m.name,
        strL "Phone: " ++ m.phone,
        strL "Blood: " ++ m.blood,
        strL "Gender: " ++ m.gender,
        strL "Cnic: " ++ m.cnic,
        strL "Join Date: " ++ (format02 m.day ++ '/' :: (format02 m.month
          ++ '/' :: intToStr m.year)),
        strL "Membership: " ++ (intToStr m.membership_months ++ strL " months"),
        strL "Package: " ++ m.package,
        strL "End Date: " ++ ed,
        strL "Status: " ++ m.status,
        strL "Created by: Sayyam Shahbaz",
        strL "LinkedIn: https://www.linkedin.com/in/sayyam-shahbaz-05894a194/",
        strL "Instagram: https://www.instagram.com/safderkhan0800_/" ] := by
    simp only [encodeLines, hed, pyStrOpt, List.append_assoc]
    rfl
  have hnn : ∀ l ∈ [ strL "💪 SOLID GYM (" ++ (m.id ++ strL ")"),
        strL "Id: " ++ m.id,
        strL "Name: " ++ m.name,
        strL "Phone: " ++ m.phone,
        strL "Blood: " ++ m.blood,
        strL "Gender: " ++ m.gender,
        strL "Cnic: " ++ m.cnic,
        strL "Join Date: " ++ (format02 m.day ++ '/' :: (format02 m.month
          ++ '/' :: intToStr m.year)),
        strL "Membership: " ++ (intToStr m.membership_months ++ strL " months"),
        strL "Package: " ++ m.package,
        strL "End Date: " ++ ed,
        strL "Status: " ++ m.status,
        strL "Created by: Sayyam Shahbaz",
        strL "LinkedIn: https://www.linkedin.com/in/sayyam-shahbaz-05894a194/",
        strL "Instagram: https://www.instagram.com/safderkhan0800_/" ], l ≠ [] := by
    intro l hl
    simp only [List.mem_cons, List.not_mem_nil, or_false] at hl
    rcases hl with rfl|rfl|rfl|rfl|rfl|rfl|rfl|rfl|rfl|rfl|rfl|rfl|rfl|rfl|rfl
    all_goals first
      | exact append_ne_nil_left _ _ (by decide)
      | decide
  have hnl : ∀ l ∈ [ strL "💪 SOLID GYM (" ++ (m.id ++ strL ")"),
        strL "Id: " ++ m.id,
        strL "Name: " ++ m.name,
        strL "Phone: " ++ m.phone,
        strL "Blood: " ++ m.blood,
        strL "Gender: " ++ m.gender,
        strL "Cnic: " ++ m.cnic,
        strL "Join Date: " ++ (format02 m.day ++ '/' :: (format02 m.month
          ++ '/' :: intToStr m.year)),
        strL "Membership: " ++ (intToStr m.membership_months ++ strL " months"),
        strL "Package: " ++ m.package,
        strL "End Date: " ++ ed,
        strL "Status: " ++ m.status,
        strL "Created by: Sayyam Shahbaz",
        strL "LinkedIn: https://www.linkedin.com/in/sayyam-shahbaz-05894a194/",
        strL "Instagram: https://www.instagram.com/safderkhan0800_/" ],
      ∀ c ∈ l, c ≠ '\n' := by
    intro l hl
    simp only [List.mem_cons, List.not_mem_nil, or_false] at hl
    rcases hl with rfl|rfl|rfl|rfl|rfl|rfl|rfl|rfl|rfl|rfl|rfl|rfl|rfl|rfl|rfl
    · intro c hc
      rcases List.mem_append.1 hc with h1 | h2
      · exact (show ∀ x ∈ (strL "💪 SOLID GYM (" : Str), x ≠ '\n' by decide) c h1
      · rcases List.mem_append.1 h2 with h3 | h4
        · exact hid3 c h3
        · exact (show ∀ x ∈ (strL ")" : Str), x ≠ '\n' by decide) c h4
    · intro c hc
      rcases List.mem_append.1 hc with h1 | h2
      · exact (show ∀ x ∈ (strL "Id: " : Str), x ≠ '\n' by decide) c h1
      · exact hid3 c h2
    · intro c hc
      rcases List.mem_append.1 hc with h1 | h2
      · exact (show ∀ x ∈ (strL "Name: " : Str), x ≠ '\n' by decide) c h1
      · exact hname3 c h2
    · intro c hc
      rcases List.mem_append.1 hc with h1 | h2
      · exact (show ∀ x ∈ (strL "Phone: " : Str), x ≠ '\n' by decide) c h1
      · exact hphone3 c h2
    · intro c hc
      rcases List.mem_append.1 hc with h1 | h2
      · exact (show ∀ x ∈ (strL "Blood: " : Str), x ≠ '\n' by decide) c h1
      · exact hblood3 c h2
    · intro c hc
      rcases List.mem_append.1 hc with h1 | h2
      · exact (show ∀ x ∈ (strL "Gender: " : Str), x ≠ '\n' by decide) c h1
      · exact hgender3 c h2
    · intro c hc
      rcases List.mem_append.1 hc with h1 | h2
      · exact (show ∀ x ∈ (strL "Cnic: " : Str), x ≠ '\n' by decide) c h1
      · exact hcnic3 c h2
    · intro c hc
      rcases List.mem_append.1 hc with h1 | h2
      · exact (show ∀ x ∈ (strL "Join Date: " : Str), x ≠ '\n' by decide) c h1
      · rcases List.mem_append.1 h2 with h3 | h4
        · exact hnlf02 m.day c h3
        · rcases List.mem_cons.1 h4 with rfl | h5
          · decide
          · rcases List.mem_append.1 h5 with h6 | h7
            · exact hnlf02 m.month c h6
            · rcases List.mem_cons.1 h7 with rfl | h8
              · decide
              · exact hnlint m.year c h8
    · intro c hc
      rcases List.mem_append.1 hc with h1 | h2
      · exact (show ∀ x ∈ (strL "Membership: " : Str), x ≠ '\n' by decide) c h1
      · rcases List.mem_append.1 h2 with h3 | h4
        · exact hnlint m.membership_months c h3
        · exact (show ∀ x ∈ (strL " months" : Str), x ≠ '\n' by decide) c h4
    · intro c hc
      rcases List.mem_append.1 hc with h1 | h2
      · exact (show ∀ x ∈ (strL "Package: " : Str), x ≠ '\n' by decide) c h1
      · exact hpack3 c h2
    · intro c hc
      rcases List.mem_append.1 hc with h1 | h2
      · exact (show ∀ x ∈ (strL "End Date: " : Str), x ≠ '\n' by decide) c h1
      · exact hedv3 c h2
    · intro c hc
      rcases List.mem_append.1 hc with h1 | h2
      · exact (show ∀ x ∈ (strL "Status: " : Str), x ≠ '\n' by decide) c h1
      · exact hstat3 c h2
    · decide
    · decide
    · decide
  unfold parseText
  rw [show encodeText m = joinLines (encodeLines m) from rfl, henc,
    pySplitlines_joinLines _ (by simp) hnn hnl]
  simp only [List.foldl_cons, List.foldl_nil]
  rw [processLine_header, processLine_id _ _ hid4, processLine_name _ _ hname4,
    processLine_phone _ _ hphone4, processLine_blood _ _ hblood4,
    processLine_gender _ _ hgender4, processLine_cnic _ _ hcnic4,
    processLine_joinDate, processLine_membership, processLine_package _ _ hpack4,
    processLine_endDate _ _ hedv4, processLine_status _ _ hstat4,
    processLine_footer_creator, processLine_footer_linkedin,
    processLine_footer_instagram]
  simp [fallbackId, hid1]

/-- C2 counterexample: a record whose name " J" is non-empty and colon-free
(the hypotheses of the claim as stated) fails the byte-for-byte round trip,
because the decoder strips the leading whitespace of the value. -/
theorem decode_encode_roundtrip_counterexample :
    (∀ v ∈ [strL "M1", strL " J", strL "1", strL "B", strL "Male", strL "42",
        strL "Gold", strL "2020-05-05", strL "Active"],
      v ≠ [] ∧ ∀ c ∈ v, c ≠ ':')
    ∧ (parseText (strL "M1") (encodeText
        { id := strL "M1", name := strL " J", phone := strL "1",
          blood := strL "B", gender := strL "Male", cnic := strL "42",
          day := 5, month := 2, year := 2020, membership_months := 3,
          package := strL "Gold", end_date := some (strL "2020-05-05"),
          status := strL "Active" })).name ≠ strL " J" := by
  decide

/-- C2 witness: the round-trip theorem applied to a concrete record. -/
theorem decode_encode_roundtrip_witness :
    parseText (strL "zz") (encodeText
      { id := strL "M1", name := strL "John", phone := strL "123",
        blood := strL "B+", gender := strL "Male", cnic := strL "42101",
        day := 31, month := 1, year := 2024, membership_months := 3,
        package := strL "Gold", end_date := some (strL "2024-04-30"),
        status := strL "Active" }) =
      { id := strL "M1", name := strL "John", phone := strL "123",
        blood := strL "B+", gender := strL "Male", cnic := strL "42101",
        package := strL "Gold", day := some 31, month := some 1,
        year := some 2024, membership_months := some 3,
        end_date := some (strL "2024-04-30"), status := some (strL "Active"),
        photo_path := none } :=
  decode_encode_roundtrip _ (strL "2024-04-30") (strL "zz") rfl
    (by decide) (by decide) (by decide) (by decide) (by decide) (by decide)
    (by decide) (by decide) (by decide)

theorem daysInMonth_ge (y m : Nat) : 28 ≤ daysInMonth y m := by
  unfold daysInMonth isLeap
  split_ifs <;> omega

/-- C5: for every valid date and every number of months n ≥ 1, `add_months`
advances the month count by exactly n with year rollover, lands on a month in
1–12, clamps the day to the length of the target month exactly when the
source day overflows, returns a valid date, and in particular sends Jan 31
plus one month to Feb 28 in 2023 and Feb 29 in 2024. -/
theorem addMonths_spec (d : PyDate) (n : Nat) (hd : validDate d) (hn : 1 ≤ n) :
    ((addMonths d n).year * 12 + ((addMonths d n).month - 1)
        = d.year * 12 + (d.month - 1) + n)
    ∧ 1 ≤ (addMonths d n).month ∧ (addMonths d n).month ≤ 12
    ∧ (addMonths d n).day
        = min d.day (daysInMonth (addMonths d n).year (addMonths d n).month)
    ∧ (daysInMonth (addMonths d n).year (addMonths d n).month < d.day →
        (addMonths d n).day = daysInMonth (addMonths d n).year (addMonths d n).month)
    ∧ (d.day ≤ daysInMonth (addMonths d n).year (addMonths d n).month →
        (addMonths d n).day = d.day)
    ∧ validDate (addMonths d n)
    ∧ addMonths ⟨2023, 1, 31⟩ 1 = ⟨2023, 2, 28⟩
    ∧ addMonths ⟨2024, 1, 31⟩ 1 = ⟨2024, 2, 29⟩ := by
  obtain ⟨hm1, hm2, hd1, hd2⟩ := hd
  have hmod := Nat.div_add_mod (d.month - 1 + n) 12
  have hlt : (d.month - 1 + n) % 12 < 12 := Nat.mod_lt _ (by omega)
  have hdim : 28 ≤ daysInMonth (d.year + (d.month - 1 + n) / 12)
      ((d.month - 1 + n) % 12 + 1) := daysInMonth_ge _ _
  refine ⟨?_, ?_, ?_, rfl, ?_, ?_, ⟨?_, ?_, ?_, ?_⟩, by decide, by decide⟩
  · simp only [addMonths]
    omega
  · simp only [addMonths]
    omega
  · simp only [addMonths]
    omega
  · intro hlt2
    simp only [addMonths] at hlt2 ⊢
    omega
  · intro hle
    simp only [addMonths] at hle ⊢
    omega
  · simp only [addMonths]
    omega
  · simp only [addMonths]
    omega
  · simp only [addMonths]
    omega
  · show (addMonths d n).day ≤ daysInMonth (addMonths d n).year (addMonths d n).month
    simp only [addMonths] at hdim ⊢
    omega

/-- C5 witness: the spec applied at January 31, 2023 with one month. -/
theorem addMonths_spec_witness :
    addMonths ⟨2023, 1, 31⟩ 1 = ⟨2023, 2, 28⟩ :=
  (addMonths_spec ⟨2023, 1, 31⟩ 1 (by decide) (by decide)).2.2.2.2.2.2.2.1


theorem lastVisitStep_cases (mid : Str) (acc : Option Nat) (r : Str × Str)
    (u : Nat) (h : lastVisitStep mid acc r = some u) :
    acc = some u ∨ (r.1 = mid ∧ parseTimestamp r.2 = some u) := by
  unfold lastVisitStep at h
  split at h
  · rename_i hr1
    split at h
    · rename_i v hp
      cases acc with
      | none =>
        injection h with h'
        exact Or.inr ⟨hr1, by rw [hp, h']⟩
      | some w =>
        by_cases hgt : v > w
        · simp only [if_pos hgt] at h
          injection h with h'
          exact Or.inr ⟨hr1, by rw [hp, h']⟩
        · simp only [if_neg hgt] at h
          exact Or.inl h
    · exact Or.inl h
  · exact Or.inl h

theorem lastVisitStep_some_le (mid : Str) (r : Str × Str) (u : Nat) :
    ∃ w, lastVisitStep mid (some u) r = some w ∧ u ≤ w := by
  unfold lastVisitStep
  split
  · split
    · rename_i v hp
      by_cases hgt : v > u
      · exact ⟨v, by simp [hgt], by omega⟩
      · exact ⟨u, by simp [hgt], le_refl u⟩
    · exact ⟨u, rfl, le_refl u⟩
  · exact ⟨u, rfl, le_refl u⟩

theorem lastVisitStep_match_le (mid : Str) (acc : Option Nat) (r : Str × Str)
    (u : Nat) (hr1 : r.1 = mid) (hp : parseTimestamp r.2 = some u) :
    ∃ w, lastVisitStep mid acc r = some w ∧ u ≤ w := by
  unfold lastVisitStep
  rw [if_pos hr1, hp]
  cases acc with
  | none => exact ⟨u, rfl, le_refl u⟩
  | some v =>
    by_cases hgt : u > v
    · exact ⟨u, by simp [hgt], le_refl u⟩
    · exact ⟨v, by simp [hgt], by omega⟩

theorem lastVisit_fold_spec (mid : Str) (l : List (Str × Str)) :
    ∀ (acc : Option Nat) (t : Nat),
      l.foldl (lastVisitStep mid) acc = some t →
      ((acc = some t ∨ ∃ r ∈ l, r.1 = mid ∧ parseTimestamp r.2 = some t)
       ∧ (∀ u, acc = some u → u ≤ t)
       ∧ (∀ r ∈ l, r.1 = mid → ∀ u, parseTimestamp r.2 = some u → u ≤ t)) := by
  induction l with
  | nil =>
    intro acc t h
    simp only [List.foldl_nil] at h
    refine ⟨Or.inl h, fun u hu => ?_, fun r hr => absurd hr (List.not_mem_nil r)⟩
    rw [h] at hu
    injection hu with h'
    omega
  | cons r l ih =>
    intro acc t h
    simp only [List.foldl_cons] at h
    obtain ⟨hsrc, hmono, hdom⟩ := ih (lastVisitStep mid acc r) t h
    refine ⟨?_, ?_, ?_⟩
    · rcases hsrc with hacc | ⟨r', hr', hmid', hp'⟩
      · rcases lastVisitStep_cases mid acc r t hacc with h1 | h2
        · exact Or.inl h1
        · exact Or.inr ⟨r, List.mem_cons_self r l, h2.1, h2.2⟩
      · exact Or.inr ⟨r', List.mem_cons_of_mem r hr', hmid', hp'⟩
    · intro u hu
      subst hu
      obtain ⟨w, hw, huw⟩ := lastVisitStep_some_le mid r u
      exact le_trans huw (hmono w hw)
    · intro r' hr' hmid' u hp'
      rcases List.mem_cons.1 hr' with rfl | hmem
      · obtain ⟨w, hw, huw⟩ := lastVisitStep_match_le mid acc r' u hmid' hp'
        exact le_trans huw (hmono w hw)
      · exact hdom r' hmem hmid' u hp'

theorem lastVisit_none_of_no_events (data : List (Str × Str)) (mid : Str)
    (h : ∀ r ∈ data, r.1 ≠ mid) : lastVisit data mid = none := by
  unfold lastVisit
  induction data with
  | nil => rfl
  | cons r l ih =>
    simp only [List.foldl_cons]
    rw [show lastVisitStep mid none r = none from by
      unfold lastVisitStep
      rw [if_neg (h r (by simp))]]
    exact ih (fun x hx => h x (by simp [hx]))

/-- C8: the churn classifier keeps the maximum parsable timestamp of the
member's attendance rows and classifies the elapsed whole days (floor of the
second difference over 86400, exactly Python timedelta `.days`) as Low when
at most 14, Medium when between 15 and 21, and High when above 21; a member
with no parsable attendance rows — in particular one with no rows at all —
gets the distinct no-history answer. -/
theorem getChurnRisk_spec (now : Int) (data : List (Str × Str)) (mid : Str) :
    (lastVisit data mid = none →
       getChurnRisk now data mid = strL "No attendance history.")
    ∧ ((∀ r ∈ data, r.1 ≠ mid) →
       getChurnRisk now data mid = strL "No attendance history.")
    ∧ (∀ t, lastVisit data mid = some t →
        ((∃ r ∈ data, r.1 = mid ∧ parseTimestamp r.2 = some t)
         ∧ (∀ r ∈ data, r.1 = mid → ∀ u, parseTimestamp r.2 = some u → u ≤ t)
         ∧ (Int.fdiv (now - (t : Int)) 86400 ≤ 14 →
             getChurnRisk now data mid = strL "Low Risk (Active)")
         ∧ (15 ≤ Int.fdiv (now - (t : Int)) 86400
              ∧ Int.fdiv (now - (t : Int)) 86400 ≤ 21 →
             getChurnRisk now data mid = strL "Medium Risk (Absent 2 weeks)")
         ∧ (21 < Int.fdiv (now - (t : Int)) 86400 →
             getChurnRisk now data mid = strL "High Risk (Absent 3+ weeks)"))) := by
  refine ⟨fun hnone => ?_, fun hno => ?_, fun t ht => ?_⟩
  · unfold getChurnRisk
    rw [hnone]
  · unfold getChurnRisk
    rw [lastVisit_none_of_no_events data mid hno]
  · obtain ⟨hsrc, _, hdom⟩ := lastVisit_fold_spec mid data none t ht
    have hsrc' : ∃ r ∈ data, r.1 = mid ∧ parseTimestamp r.2 = some t := by
      rcases hsrc with hbad | hok
      · exact absurd hbad (by simp)
      · exact hok
    refine ⟨hsrc', hdom, fun hle => ?_, fun hmed => ?_, fun hhi => ?_⟩
    · unfold getChurnRisk
      rw [ht]
      dsimp only
      rw [if_neg (by omega), if_neg (by omega)]
    · unfold getChurnRisk
      rw [ht]
      dsimp only
      rw [if_neg (by omega), if_pos (by omega)]
    · unfold getChurnRisk
      rw [ht]
      dsimp only
      rw [if_pos (by omega)]

/-- C8 witness: the classifier applied to one concrete attendance log, hitting
the High branch 22 days after the only visit and the no-history branch for a
member without rows. -/
theorem getChurnRisk_spec_witness :
    getChurnRisk (63844799400 + 86400 * 22)
      [(strL "M1", strL "2024-02-29 10:30:00")] (strL "M1")
      = strL "High Risk (Absent 3+ weeks)"
    ∧ getChurnRisk 0 [(strL "M1", strL "2024-02-29 10:30:00")] (strL "M2")
      = strL "No attendance history." := by
  constructor
  · exact ((getChurnRisk_spec (63844799400 + 86400 * 22)
      [(strL "M1", strL "2024-02-29 10:30:00")] (strL "M1")).2.2 63844799400
      (by decide)).2.2.2.2 (by decide)
  · exact (getChurnRisk_spec 0 [(strL "M1", strL "2024-02-29 10:30:00")]
      (strL "M2")).2.1 (by decide)

/-- C4: for a non-admin caller bound to a nonempty gender, a best match whose
gender (stripped, lowercased) differs from the caller's normalised gender is
replaced by the explicit access-denied outcome with an empty match list and
no record, whatever other candidates existed. -/
theorem searchWorker_gender_denied (docs : List Doc) (photos : Str → Option Str)
    (query : Str) (ug : Option Str) (p : ParsedMember)
    (hp : (searchMembers docs photos query).parsed = some p)
    (hg : genderNorm ug ≠ [])
    (hne : toLowerS (trimS p.gender) ≠ genderNorm ug) :
    runSearchWorker docs photos query false ug =
      { matchList := [], parsed := none, access_denied := true } := by
  unfold runSearchWorker
  dsimp only
  rw [hp]
  simp [hg, hne]

/-- C4 witness: a female best match searched by a male-bound restricted
caller is denied even though the store held the record. -/
theorem searchWorker_gender_denied_witness :
    runSearchWorker [exDocF] (fun _ => none) (strL "F1") false
      (some (strL "Male")) =
      { matchList := [], parsed := none, access_denied := true } :=
  searchWorker_gender_denied [exDocF] (fun _ => none) (strL "F1")
    (some (strL "Male")) { id := strL "F1", gender := strL "Female" }
    (by decide) (by decide) (by decide)

/-- C10: a non-admin caller whose bound gender is absent or empty receives
the engine's full unfiltered result for every query, and the gender check
also never fires when the search produced no best-match record. -/
theorem searchWorker_no_gender_spec (docs : List Doc)
    (photos : Str → Option Str) (query : Str) :
    (runSearchWorker docs photos query false none =
      { matchList := (searchMembers docs photos query).matchList,
        parsed := (searchMembers docs photos query).parsed,
        access_denied := false })
    ∧ (runSearchWorker docs photos query false (some []) =
      { matchList := (searchMembers docs photos query).matchList,
        parsed := (searchMembers docs photos query).parsed,
        access_denied := false })
    ∧ (∀ ug, (searchMembers docs photos query).parsed = none →
        runSearchWorker docs photos query false ug =
          { matchList := (searchMembers docs photos query).matchList,
            parsed := (searchMembers docs photos query).parsed,
            access_denied := false }) := by
  refine ⟨?_, ?_, fun ug hnone => ?_⟩
  · unfold runSearchWorker
    dsimp only
    cases hp : (searchMembers docs photos query).parsed with
    | none => simp [hp]
    | some p => simp [hp, genderNorm]
  · unfold runSearchWorker
    dsimp only
    cases hp : (searchMembers docs photos query).parsed with
    | none => simp [hp]
    | some p => simp [hp, genderNorm]
  · unfold runSearchWorker
    dsimp only
    rw [hnone]
    simp

/-- C10 witness: the unfiltered result is delivered for a concrete store,
query and absent caller gender. -/
theorem searchWorker_no_gender_spec_witness :
    runSearchWorker [exDocF] (fun _ => none) (strL "F1") false none =
      { matchList := [exDocF],
        parsed := some { id := strL "F1", gender := strL "Female" },
        access_denied := false } := by
  rw [(searchWorker_no_gender_spec [exDocF] (fun _ => none) (strL "F1")).1]
  decide

/-- C7: decoding is total — an unreadable document yields absence rather than
an error, a readable one always yields a record — and a numeric failure on a
`Join Date:` or `Membership:` line leaves the whole dictionary unchanged by
that line, so the rest of the decode proceeds exactly as if the bad line were
absent. -/
theorem parseMember_total_spec :
    (∀ doc : Doc, doc.text = none → parseDoc doc = none)
    ∧ (∀ (doc : Doc) (t : Str), doc.text = some t →
        parseDoc doc = some (parseText doc.stem t))
    ∧ (∀ (d : ParsedMember) (rest : Str),
        joinDateFields (strL "Join Date:" ++ rest) = none →
        processLine d (strL "Join Date:" ++ rest) = d)
    ∧ (∀ (d : ParsedMember) (rest : Str),
        membershipValue (strL "Membership:" ++ rest) = none →
        processLine d (strL "Membership:" ++ rest) = d)
    ∧ (∀ (init : ParsedMember) (pre post : List Str) (rest : Str),
        joinDateFields (strL "Join Date:" ++ rest) = none →
        (pre ++ (strL "Join Date:" ++ rest) :: post).foldl processLine init
          = (pre ++ post).foldl processLine init) := by
  have hjd : ∀ (d : ParsedMember) (rest : Str),
      joinDateFields (strL "Join Date:" ++ rest) = none →
      processLine d (strL "Join Date:" ++ rest) = d := by
    intro d rest h
    simp +decide [processLine, procStd, packageStep, joinDateStep,
      membershipStep, endDateStep, statusStep, stdLabel, toLowerS_append, h,
      startsWithS_append_left, startsWithS_take_false]
  refine ⟨fun doc h => by simp [parseDoc, h],
    fun doc t h => by simp [parseDoc, h], hjd, ?_, ?_⟩
  · intro d rest h
    simp +decide [processLine, procStd, packageStep, joinDateStep,
      membershipStep, endDateStep, statusStep, stdLabel, toLowerS_append, h,
      startsWithS_append_left, startsWithS_take_false]
  · intro init pre post rest h
    rw [List.foldl_append, List.foldl_append, List.foldl_cons,
      hjd _ rest h]

/-- C7 witness: an unreadable document decodes to absence, and a Join Date
line with unparsable numbers leaves the empty dictionary unchanged. -/
theorem parseMember_total_spec_witness :
    parseDoc { stem := strL "u", path := strL "u", text := none, mtime := 0 } = none
    ∧ processLine {} (strL "Join Date:" ++ strL " xx/yy/zz") = {} :=
  ⟨parseMember_total_spec.1
      { stem := strL "u", path := strL "u", text := none, mtime := 0 } rfl,
    parseMember_total_spec.2.2.1 {} (strL " xx/yy/zz") (by decide)⟩

theorem pyMaxBy_fold (f : α → Nat) (l : List α) : ∀ b0 : α,
    (l.foldl (fun b y => if f y > f b then y else b) b0) ∈ b0 :: l
    ∧ f b0 ≤ f (l.foldl (fun b y => if f y > f b then y else b) b0)
    ∧ ∀ y ∈ l, f y ≤ f (l.foldl (fun b y => if f y > f b then y else b) b0) := by
  induction l with
  | nil => intro b0; simp
  | cons x l ih =>
    intro b0
    simp only [List.foldl_cons]
    by_cases hgt : f x > f b0
    · simp only [if_pos hgt]
      obtain ⟨hmem, hle, hdom⟩ := ih x
      refine ⟨?_, by omega, ?_⟩
      · rcases List.mem_cons.1 hmem with he | hm
        · rw [he]; simp
        · simp [hm]
      · intro y hy
        rcases List.mem_cons.1 hy with rfl | hm
        · exact hle
        · exact hdom y hm
    · simp only [if_neg hgt]
      obtain ⟨hmem, hle, hdom⟩ := ih b0
      refine ⟨?_, hle, ?_⟩
      · rcases List.mem_cons.1 hmem with he | hm
        · rw [he]; simp
        · simp [hm]
      · intro y hy
        rcases List.mem_cons.1 hy with rfl | hm
        · omega
        · exact hdom y hm

theorem pyMaxBy_spec (f : α → Nat) (l : List α) (x : α)
    (h : pyMaxBy f l = some x) : x ∈ l ∧ ∀ y ∈ l, f y ≤ f x := by
  cases l with
  | nil => simp [pyMaxBy] at h
  | cons a l =>
    simp only [pyMaxBy, Option.some.injEq] at h
    obtain ⟨hmem, hle, hdom⟩ := pyMaxBy_fold f l a
    subst h
    refine ⟨hmem, fun y hy => ?_⟩
    rcases List.mem_cons.1 hy with rfl | hm
    · exact hle
    · exact hdom y hm

theorem pyMaxBy_isSome (f : α → Nat) (l : List α) (h : l ≠ []) :
    ∃ x, pyMaxBy f l = some x := by
  cases l with
  | nil => exact absurd rfl h
  | cons a l => exact ⟨_, rfl⟩

theorem pyMaxBy_eq_none (f : α → Nat) (l : List α)
    (h : pyMaxBy f l = none) : l = [] := by
  cases l with
  | nil => rfl
  | cons a l => simp [pyMaxBy] at h

/-- C3: the content pass result is used exactly when the filename pass found
nothing (otherwise the match list is the filename-pass list untouched); and a
nonempty candidate set always yields a best match that belongs to the list,
dominates every candidate's modification time, is decoded (with photo
attachment) as the returned record, and is the strict latest when
modification times are pairwise distinct. -/
theorem searchMembers_spec (docs : List Doc) (photos : Str → Option Str)
    (q : Str) :
    (filenamePass docs (trimS (toLowerS q)) ≠ [] →
      (searchMembers docs photos q).matchList
        = filenamePass docs (trimS (toLowerS q)))
    ∧ (filenamePass docs (trimS (toLowerS q)) = [] →
      (searchMembers docs photos q).matchList
        = contentPass docs (trimS (toLowerS q)))
    ∧ (∀ b, pyMaxBy (fun d => d.mtime) (searchMembers docs photos q).matchList
          = some b →
        b ∈ (searchMembers docs photos q).matchList
        ∧ (∀ x ∈ (searchMembers docs photos q).matchList, x.mtime ≤ b.mtime)
        ∧ (searchMembers docs photos q).parsed
            = (parseDoc b).map (withPhoto photos)
        ∧ (List.Pairwise (fun x y => x.mtime ≠ y.mtime)
              (searchMembers docs photos q).matchList →
            ∀ x ∈ (searchMembers docs photos q).matchList, x ≠ b →
              x.mtime < b.mtime))
    ∧ ((searchMembers docs photos q).matchList ≠ [] →
        ∃ b, pyMaxBy (fun d => d.mtime) (searchMembers docs photos q).matchList
          = some b) := by
  have hres : ∀ (ms : List Doc),
      (if (filenamePass docs (trimS (toLowerS q))).isEmpty
        then contentPass docs (trimS (toLowerS q))
        else filenamePass docs (trimS (toLowerS q))) = ms →
      (searchMembers docs photos q
        = match pyMaxBy (fun d => d.mtime) ms with
          | none => { matchList := [], parsed := none }
          | some latest =>
            { matchList := ms, parsed := (parseDoc latest).map (withPhoto photos) }) := by
    intro ms hms
    unfold searchMembers
    dsimp only
    rw [hms]
  by_cases hfp : filenamePass docs (trimS (toLowerS q)) = []
  · have hres' := hres (contentPass docs (trimS (toLowerS q)))
      (by rw [hfp]; simp)
    cases hmax : pyMaxBy (fun d => d.mtime) (contentPass docs (trimS (toLowerS q))) with
    | none =>
      have hcp : contentPass docs (trimS (toLowerS q)) = [] :=
        pyMaxBy_eq_none _ _ hmax
      rw [hres']
      rw [hmax]
      refine ⟨fun hne => absurd hfp hne, fun _ => by simp [hcp], ?_, ?_⟩
      · intro b hb
        simp only [pyMaxBy] at hb
        cases hb
      · intro hne
        exact absurd rfl hne
    | some b0 =>
      rw [hres']
      rw [hmax]
      obtain ⟨hbmem, hbdom⟩ := pyMaxBy_spec _ _ _ hmax
      refine ⟨fun hne => absurd hfp hne, fun _ => rfl, ?_, fun _ => ⟨b0, hmax⟩⟩
      intro b hb
      rw [hmax] at hb
      injection hb with hb'
      rw [← hb']
      refine ⟨hbmem, fun x hx => hbdom x hx, rfl, ?_⟩
      intro hpw x hx hxb
      have hle := hbdom x hx
      have hsym : Symmetric (fun x y : Doc => x.mtime ≠ y.mtime) := by
        intro u v h
        exact h.symm
      have hne' : x.mtime ≠ b0.mtime :=
        List.Pairwise.forall hsym hpw hx hbmem hxb
      omega
  · have hres' := hres (filenamePass docs (trimS (toLowerS q)))
      (by simp [List.isEmpty_iff, hfp])
    obtain ⟨b0, hmax⟩ := pyMaxBy_isSome (fun d : Doc => d.mtime) _ hfp
    rw [hres']
    rw [hmax]
    obtain ⟨hbmem, hbdom⟩ := pyMaxBy_spec _ _ _ hmax
    refine ⟨fun _ => rfl, fun he => absurd he hfp, ?_, fun _ => ⟨b0, hmax⟩⟩
    intro b hb
    rw [hmax] at hb
    injection hb with hb'
    rw [← hb']
    refine ⟨hbmem, fun x hx => hbdom x hx, rfl, ?_⟩
    intro hpw x hx hxb
    have hle := hbdom x hx
    have hsym : Symmetric (fun x y : Doc => x.mtime ≠ y.mtime) := by
      intro u v h
      exact h.symm
    have hne' : x.mtime ≠ b0.mtime :=
      List.Pairwise.forall hsym hpw hx hbmem hxb
    omega

/-- C3 witness: a name query matched by no filename falls through to the
content pass, and of two different-id name matches the later-modified one is
decoded as the best result. -/
theorem searchMembers_spec_witness :
    (searchMembers [exDocJohn1, exDocJohn2] (fun _ => none) (strL "john")).matchList
      = contentPass [exDocJohn1, exDocJohn2] (trimS (toLowerS (strL "john")))
    ∧ (searchMembers [exDocJohn1, exDocJohn2] (fun _ => none) (strL "john")).parsed
      = (parseDoc exDocJohn2).map (withPhoto (fun _ => none)) :=
  ⟨(searchMembers_spec [exDocJohn1, exDocJohn2] (fun _ => none)
      (strL "john")).2.1 (by decide),
   ((searchMembers_spec [exDocJohn1, exDocJohn2] (fun _ => none)
      (strL "john")).2.2.1 exDocJohn2 (by decide)).2.2.1⟩


theorem updateA_keys (dict : List (Str × α)) (k : Str) (v : α) :
    (updateA dict k v).map Prod.fst = dict.map Prod.fst := by
  induction dict with
  | nil => rfl
  | cons e rest ih =>
    unfold updateA
    by_cases hk : e.1 = k
    · rw [if_pos hk]
      simp
    · rw [if_neg hk]
      simp [ih]

theorem lookupA_mem_keys (dict : List (Str × α)) (k : Str) (v : α)
    (h : lookupA dict k = some v) : k ∈ dict.map Prod.fst := by
  induction dict with
  | nil => exact Option.noConfusion h
  | cons e rest ih =>
    unfold lookupA at h
    by_cases hk : e.1 = k
    · rw [List.map_cons, ← hk]
      exact List.mem_cons_self e.1 _
    · rw [if_neg hk] at h
      rw [List.map_cons]
      exact List.mem_cons_of_mem e.1 (ih h)

theorem mem_updateA (dict : List (Str × α)) (k : Str) (v : α) (e : Str × α)
    (h : e ∈ updateA dict k v) : e ∈ dict ∨ e = (k, v) := by
  induction dict with
  | nil => exact absurd h (by simp [updateA])
  | cons e' rest ih =>
    unfold updateA at h
    by_cases hk : e'.1 = k
    · rw [if_pos hk] at h
      rcases List.mem_cons.1 h with he | hm
      · right
        rw [he, hk]
      · exact Or.inl (List.mem_cons_of_mem e' hm)
    · rw [if_neg hk] at h
      rcases List.mem_cons.1 h with he | hm
      · left
        rw [he]
        exact List.mem_cons_self e' rest
      · rcases ih hm with h1 | h2
        · exact Or.inl (List.mem_cons_of_mem e' h1)
        · exact Or.inr h2

theorem gmbsStep_keys_mono (s : Str) (dict : List (Str × ParsedMember × Nat))
    (doc : Doc) (k : Str) (h : k ∈ dict.map Prod.fst) :
    k ∈ (gmbsStep s dict doc).map Prod.fst := by
  unfold gmbsStep
  cases hpd : parseDoc doc with
  | none => exact h
  | some p =>
    dsimp only
    by_cases hm : statusMatches p s = true
    · rw [if_pos hm]
      cases hl : lookupA dict p.id with
      | none => simp [h]
      | some e =>
        obtain ⟨pv, tv⟩ := e
        dsimp only
        by_cases ht : doc.mtime > tv
        · rw [if_pos ht, updateA_keys]
          exact h
        · rw [if_neg ht]
          exact h
    · rw [if_neg hm]
      exact h

theorem gmbsStep_adds (s : Str) (dict : List (Str × ParsedMember × Nat))
    (doc : Doc) (p : ParsedMember) (hp : parseDoc doc = some p)
    (hm : statusMatches p s = true) :
    p.id ∈ (gmbsStep s dict doc).map Prod.fst := by
  unfold gmbsStep
  rw [hp]
  dsimp only
  rw [if_pos hm]
  cases hl : lookupA dict p.id with
  | none =>
    rw [List.map_append]
    exact List.mem_append_right _ (List.mem_singleton.2 rfl)
  | some e =>
    obtain ⟨pv, tv⟩ := e
    have hk := lookupA_mem_keys dict p.id (pv, tv) hl
    dsimp only
    by_cases ht : doc.mtime > tv
    · rw [if_pos ht, updateA_keys]
      exact hk
    · rw [if_neg ht]
      exact hk

theorem gmbsFold_keys_mono (s : Str) (docs : List Doc) :
    ∀ (dict : List (Str × ParsedMember × Nat)) (k : Str),
      k ∈ dict.map Prod.fst → k ∈ (docs.foldl (gmbsStep s) dict).map Prod.fst := by
  induction docs with
  | nil => intro dict k h; exact h
  | cons doc docs ih =>
    intro dict k h
    simp only [List.foldl_cons]
    exact ih _ k (gmbsStep_keys_mono s dict doc k h)

theorem gmbsStep_matches (s : Str) (dict : List (Str × ParsedMember × Nat))
    (doc : Doc) (hinv : ∀ e ∈ dict, statusMatches e.2.1 s = true) :
    ∀ e ∈ gmbsStep s dict doc, statusMatches e.2.1 s = true := by
  intro e he
  unfold gmbsStep at he
  cases hpd : parseDoc doc with
  | none => rw [hpd] at he; exact hinv e he
  | some p =>
    rw [hpd] at he
    dsimp only at he
    by_cases hm : statusMatches p s = true
    · rw [if_pos hm] at he
      cases hl : lookupA dict p.id with
      | none =>
        rw [hl] at he
        rcases List.mem_append.1 he with h1 | h2
        · exact hinv e h1
        · rw [List.mem_singleton] at h2
          rw [h2]
          exact hm
      | some w =>
        obtain ⟨pv, tv⟩ := w
        rw [hl] at he
        dsimp only at he
        by_cases ht : doc.mtime > tv
        · rw [if_pos ht] at he
          rcases mem_updateA _ _ _ _ he with h1 | h2
          · exact hinv e h1
          · rw [h2]
            exact hm
        · rw [if_neg ht] at he
          exact hinv e he
    · rw [if_neg hm] at he
      exact hinv e he

theorem gmbsFold_matches (s : Str) (docs : List Doc) :
    ∀ (dict : List (Str × ParsedMember × Nat)),
      (∀ e ∈ dict, statusMatches e.2.1 s = true) →
      ∀ e ∈ docs.foldl (gmbsStep s) dict, statusMatches e.2.1 s = true := by
  induction docs with
  | nil => intro dict hinv; exact hinv
  | cons doc docs ih =>
    intro dict hinv
    simp only [List.foldl_cons]
    exact ih _ (gmbsStep_matches s dict doc hinv)

theorem mem_insertByMtimeDesc (x e : Str × ParsedMember × Nat)
    (l : List (Str × ParsedMember × Nat)) :
    e ∈ insertByMtimeDesc x l ↔ e = x ∨ e ∈ l := by
  induction l with
  | nil => simp [insertByMtimeDesc]
  | cons y ys ih =>
    unfold insertByMtimeDesc
    by_cases hy : y.2.2 ≥ x.2.2
    · rw [if_pos hy]
      simp only [List.mem_cons, ih]
      tauto
    · rw [if_neg hy]
      simp only [List.mem_cons]

theorem mem_sortByMtimeDesc (e : Str × ParsedMember × Nat)
    (l : List (Str × ParsedMember × Nat)) :
    e ∈ sortByMtimeDesc l ↔ e ∈ l := by
  unfold sortByMtimeDesc
  induction l with
  | nil => simp
  | cons y ys ih =>
    simp only [List.foldr_cons, mem_insertByMtimeDesc, List.mem_cons, ih]

theorem lookupA_mem (dict : List (Str × α)) (k : Str) (v : α)
    (h : lookupA dict k = some v) : (k, v) ∈ dict := by
  induction dict with
  | nil => exact Option.noConfusion h
  | cons e rest ih =>
    unfold lookupA at h
    split at h
    · rename_i hcond
      injection h with h'
      subst h'
      rcases e with ⟨k', v'⟩
      simp only at hcond
      subst hcond
      exact List.mem_cons_self _ _
    · exact List.mem_cons_of_mem e (ih h)

theorem lookupA_isSome_of_mem (dict : List (Str × α)) (k : Str)
    (h : k ∈ dict.map Prod.fst) : ∃ v, lookupA dict k = some v := by
  induction dict with
  | nil => exact absurd h (by simp)
  | cons e rest ih =>
    rw [List.map_cons] at h
    unfold lookupA
    by_cases hk : e.1 = k
    · exact ⟨e.2, by rw [if_pos hk]⟩
    · rw [if_neg hk]
      apply ih
      rcases List.mem_cons.1 h with he | hm
      · exact absurd he.symm hk
      · exact hm

theorem lookupA_none_not_mem (dict : List (Str × α)) (k : Str)
    (h : lookupA dict k = none) : k ∉ dict.map Prod.fst := by
  intro hm
  obtain ⟨v, hv⟩ := lookupA_isSome_of_mem dict k hm
  rw [h] at hv
  exact Option.noConfusion hv

theorem mem_updateA_nodup (dict : List (Str × α)) (k : Str) (v : α)
    (e : Str × α) (hnd : (dict.map Prod.fst).Nodup)
    (h : e ∈ updateA dict k v) : (e ∈ dict ∧ e.1 ≠ k) ∨ e = (k, v) := by
  induction dict with
  | nil => exact absurd h (by simp [updateA])
  | cons e' rest ih =>
    rw [List.map_cons] at hnd
    have hnd1 : e'.1 ∉ rest.map Prod.fst := (List.nodup_cons.1 hnd).1
    have hnd2 : (rest.map Prod.fst).Nodup := (List.nodup_cons.1 hnd).2
    unfold updateA at h
    by_cases hk : e'.1 = k
    · rw [if_pos hk] at h
      rcases List.mem_cons.1 h with he | hm
      · right
        rw [he, hk]
      · left
        refine ⟨List.mem_cons_of_mem e' hm, fun hek => ?_⟩
        exact hnd1 (by rw [hk, ← hek]; exact List.mem_map_of_mem Prod.fst hm)
    · rw [if_neg hk] at h
      rcases List.mem_cons.1 h with he | hm
      · exact Or.inl ⟨by rw [he]; exact List.mem_cons_self e' rest,
          by rw [he]; exact hk⟩
      · rcases ih hnd2 hm with ⟨h1, h2⟩ | h2
        · exact Or.inl ⟨List.mem_cons_of_mem e' h1, h2⟩
        · exact Or.inr h2

theorem lookupA_of_mem_nodup (dict : List (Str × α)) (e : Str × α)
    (hnd : (dict.map Prod.fst).Nodup) (he : e ∈ dict) :
    lookupA dict e.1 = some e.2 := by
  induction dict with
  | nil => exact absurd he (List.not_mem_nil e)
  | cons e' rest ih =>
    rw [List.map_cons] at hnd
    have hnd1 : e'.1 ∉ rest.map Prod.fst := (List.nodup_cons.1 hnd).1
    have hnd2 : (rest.map Prod.fst).Nodup := (List.nodup_cons.1 hnd).2
    unfold lookupA
    rcases List.mem_cons.1 he with rfl | hm
    · rw [if_pos rfl]
    · by_cases hk : e'.1 = e.1
      · exact absurd (by rw [hk]; exact List.mem_map_of_mem Prod.fst hm) hnd1
      · rw [if_neg hk]
        exact ih hnd2 hm

theorem gmbsInv_step (s : Str) (processed : List Doc)
    (dict : List (Str × ParsedMember × Nat)) (doc : Doc)
    (hinv : gmbsInv s processed dict) :
    gmbsInv s (processed ++ [doc]) (gmbsStep s dict doc) := by
  obtain ⟨hnd, h1, h2, h3⟩ := hinv
  unfold gmbsInv gmbsStep
  cases hpd : parseDoc doc with
  | none =>
    refine ⟨hnd, ?_, ?_, ?_⟩
    · intro e he
      obtain ⟨d, hd, hb⟩ := h1 e he
      exact ⟨d, List.mem_append_left _ hd, hb⟩
    · intro d hd q hq hmq
      rcases List.mem_append.1 hd with hdl | hdr
      · exact h2 d hdl q hq hmq
      · rw [List.mem_singleton] at hdr
        subst hdr
        rw [hpd] at hq
        exact Option.noConfusion hq
    · intro e he d hd q hq hqe hmq
      rcases List.mem_append.1 hd with hdl | hdr
      · exact h3 e he d hdl q hq hqe hmq
      · rw [List.mem_singleton] at hdr
        subst hdr
        rw [hpd] at hq
        exact Option.noConfusion hq
  | some p =>
    dsimp only
    by_cases hm : statusMatches p s = true
    · rw [if_pos hm]
      cases hl : lookupA dict p.id with
      | none =>
        have hnotmem := lookupA_none_not_mem dict p.id hl
        refine ⟨?_, ?_, ?_, ?_⟩
        · rw [List.map_append, List.nodup_append]
          refine ⟨hnd, by simp, fun x hx hxs => ?_⟩
          simp only [List.map_cons, List.map_nil, List.mem_singleton] at hxs
          subst hxs
          exact hnotmem hx
        · intro e he
          rcases List.mem_append.1 he with hel | her
          · obtain ⟨d, hd, hb⟩ := h1 e hel
            exact ⟨d, List.mem_append_left _ hd, hb⟩
          · rw [List.mem_singleton] at her
            subst her
            exact ⟨doc, List.mem_append_right _ (List.mem_singleton.2 rfl),
              hpd, rfl, rfl, hm⟩
        · intro d hd q hq hmq
          rw [List.map_append]
          rcases List.mem_append.1 hd with hdl | hdr
          · exact List.mem_append_left _ (h2 d hdl q hq hmq)
          · rw [List.mem_singleton] at hdr
            subst hdr
            rw [hpd] at hq
            injection hq with hq'
            subst hq'
            exact List.mem_append_right _ (by simp)
        · intro e he d hd q hq hqe hmq
          rcases List.mem_append.1 he with hel | her
          · rcases List.mem_append.1 hd with hdl | hdr
            · exact h3 e hel d hdl q hq hqe hmq
            · rw [List.mem_singleton] at hdr
              subst hdr
              rw [hpd] at hq
              injection hq with hq'
              subst hq'
              exact absurd (by rw [hqe]; exact List.mem_map_of_mem Prod.fst hel)
                hnotmem
          · rw [List.mem_singleton] at her
            subst her
            rcases List.mem_append.1 hd with hdl | hdr
            · have hqe' : q.id = p.id := hqe
              exact absurd (hqe' ▸ h2 d hdl q hq hmq) hnotmem
            · rw [List.mem_singleton] at hdr
              subst hdr
              exact le_refl _
      | some w =>
        obtain ⟨pv, tv⟩ := w
        have hwmem : (p.id, pv, tv) ∈ dict := lookupA_mem dict p.id (pv, tv) hl
        dsimp only
        by_cases ht : doc.mtime > tv
        · rw [if_pos ht]
          refine ⟨by rw [updateA_keys]; exact hnd, ?_, ?_, ?_⟩
          · intro e he
            rcases mem_updateA_nodup dict p.id (p, doc.mtime) e hnd he with
              ⟨hel, _⟩ | hre
            · obtain ⟨d, hd, hb⟩ := h1 e hel
              exact ⟨d, List.mem_append_left _ hd, hb⟩
            · subst hre
              exact ⟨doc, List.mem_append_right _ (List.mem_singleton.2 rfl),
                hpd, rfl, rfl, hm⟩
          · intro d hd q hq hmq
            rw [updateA_keys]
            rcases List.mem_append.1 hd with hdl | hdr
            · exact h2 d hdl q hq hmq
            · rw [List.mem_singleton] at hdr
              subst hdr
              rw [hpd] at hq
              injection hq with hq'
              subst hq'
              exact List.mem_map_of_mem Prod.fst hwmem
          · intro e he d hd q hq hqe hmq
            rcases mem_updateA_nodup dict p.id (p, doc.mtime) e hnd he with
              ⟨hel, hne⟩ | hre
            · rcases List.mem_append.1 hd with hdl | hdr
              · exact h3 e hel d hdl q hq hqe hmq
              · rw [List.mem_singleton] at hdr
                subst hdr
                rw [hpd] at hq
                injection hq with hq'
                subst hq'
                exact absurd hqe.symm hne
            · subst hre
              rcases List.mem_append.1 hd with hdl | hdr
              · have hle := h3 (p.id, pv, tv) hwmem d hdl q hq hqe hmq
                dsimp only at hle ⊢
                omega
              · rw [List.mem_singleton] at hdr
                subst hdr
                exact le_refl _
        · rw [if_neg ht]
          refine ⟨hnd, ?_, ?_, ?_⟩
          · intro e he
            obtain ⟨d, hd, hb⟩ := h1 e he
            exact ⟨d, List.mem_append_left _ hd, hb⟩
          · intro d hd q hq hmq
            rcases List.mem_append.1 hd with hdl | hdr
            · exact h2 d hdl q hq hmq
            · rw [List.mem_singleton] at hdr
              subst hdr
              rw [hpd] at hq
              injection hq with hq'
              subst hq'
              exact List.mem_map_of_mem Prod.fst hwmem
          · intro e he d hd q hq hqe hmq
            rcases List.mem_append.1 hd with hdl | hdr
            · exact h3 e he d hdl q hq hqe hmq
            · rw [List.mem_singleton] at hdr
              subst hdr
              rw [hpd] at hq
              injection hq with hq'
              subst hq'
              have hlu := lookupA_of_mem_nodup dict e hnd he
              rw [← hqe, hl] at hlu
              injection hlu with hlu'
              rw [← hlu']
              dsimp only
              omega
    · rw [if_neg hm]
      refine ⟨hnd, ?_, ?_, ?_⟩
      · intro e he
        obtain ⟨d, hd, hb⟩ := h1 e he
        exact ⟨d, List.mem_append_left _ hd, hb⟩
      · intro d hd q hq hmq
        rcases List.mem_append.1 hd with hdl | hdr
        · exact h2 d hdl q hq hmq
        · rw [List.mem_singleton] at hdr
          subst hdr
          rw [hpd] at hq
          injection hq with hq'
          subst hq'
          exact absurd hmq hm
      · intro e he d hd q hq hqe hmq
        rcases List.mem_append.1 hd with hdl | hdr
        · exact h3 e he d hdl q hq hqe hmq
        · rw [List.mem_singleton] at hdr
          subst hdr
          rw [hpd] at hq
          injection hq with hq'
          subst hq'
          exact absurd hmq hm

theorem gmbsInv_fold (s : Str) (rest : List Doc) :
    ∀ (processed : List Doc) (dict : List (Str × ParsedMember × Nat)),
      gmbsInv s processed dict →
      gmbsInv s (processed ++ rest) (rest.foldl (gmbsStep s) dict) := by
  induction rest with
  | nil =>
    intro processed dict h
    simpa using h
  | cons doc rest ih =>
    intro processed dict h
    simp only [List.foldl_cons]
    have hstep := ih (processed ++ [doc]) _ (gmbsInv_step s processed dict doc h)
    rw [List.append_assoc, List.singleton_append] at hstep
    exact hstep

theorem gmbsInv_start (s : Str) : gmbsInv s [] [] :=
  ⟨List.nodup_nil, fun e he => absurd he (List.not_mem_nil e),
    fun d hd => absurd hd (List.not_mem_nil d),
    fun e he => absurd he (List.not_mem_nil e)⟩

/-- C1 (amended): `get_members_by_status` filters decoded documents by
case-insensitive status match first and only then groups the matching
documents by id, keeping the most recently modified matching decode per id;
consequently an id appears in the listing whenever any of its documents
matches the requested status, every listed entry carries a matching status,
and every listed entry is the decode of a matching document of that id whose
modification time dominates every matching document of the same id — so an
older document's status does survive the listing when a newer document of
the same id has a different status. -/
theorem getMembersByStatus_filter_then_dedup :
    (∀ (docs : List Doc) (s : Str) (d : Doc) (p : ParsedMember),
      d ∈ docs → parseDoc d = some p → statusMatches p s = true →
      p.id ∈ (getMembersByStatusEntries docs s).map Prod.fst)
    ∧ (∀ (docs : List Doc) (s : Str),
      ∀ e ∈ getMembersByStatusEntries docs s, statusMatches e.2.1 s = true)
    ∧ (∀ (docs : List Doc) (s : Str) (k : Str) (p : ParsedMember) (t : Nat),
      (k, p, t) ∈ getMembersByStatusEntries docs s →
      (∃ d ∈ docs, parseDoc d = some p ∧ p.id = k ∧ d.mtime = t
        ∧ statusMatches p s = true)
      ∧ ∀ d ∈ docs, ∀ q, parseDoc d = some q → q.id = k →
          statusMatches q s = true → d.mtime ≤ t) := by
  refine ⟨?_, ?_, ?_⟩
  · intro docs s d p hd hp hm
    obtain ⟨pre, post, rfl⟩ := List.append_of_mem hd
    have h1 : p.id ∈ ((gmbsStep s (pre.foldl (gmbsStep s) []) d).map Prod.fst) :=
      gmbsStep_adds s _ d p hp hm
    have h2 : p.id ∈ (gmbsFold (pre ++ d :: post) s).map Prod.fst := by
      unfold gmbsFold
      rw [List.foldl_append, List.foldl_cons]
      exact gmbsFold_keys_mono s post _ p.id h1
    unfold getMembersByStatusEntries
    rw [List.mem_map] at h2 ⊢
    obtain ⟨e, he, hek⟩ := h2
    exact ⟨e, (mem_sortByMtimeDesc e _).2 he, hek⟩
  · intro docs s e he
    unfold getMembersByStatusEntries at he
    rw [mem_sortByMtimeDesc] at he
    exact gmbsFold_matches s docs [] (by simp) e he
  · intro docs s k p t hmem
    unfold getMembersByStatusEntries gmbsFold at hmem
    rw [mem_sortByMtimeDesc] at hmem
    have hinv := gmbsInv_fold s docs [] [] (gmbsInv_start s)
    rw [List.nil_append] at hinv
    obtain ⟨_, h1, _, h3⟩ := hinv
    constructor
    · obtain ⟨d, hd, hpd, hid, hmt, hms⟩ := h1 (k, p, t) hmem
      exact ⟨d, hd, hpd, hid, hmt, hms⟩
    · intro d hd q hq hqe hmq
      exact h3 (k, p, t) hmem d hd q hq hqe hmq

/-- C1 witness: the amended theorem applied to two concrete stores — one
where only the older document matches the queried status and its id still
appears, and one with two matching documents of the same id, where the kept
entry's time 2 dominates the older matching document's time. -/
theorem getMembersByStatus_filter_then_dedup_witness :
    (strL "M1") ∈ (getMembersByStatusEntries [exDocOld, exDocNew]
      (strL "Active")).map Prod.fst
    ∧ exDocOld.mtime ≤ 2 :=
  ⟨getMembersByStatus_filter_then_dedup.1 [exDocOld, exDocNew] (strL "Active")
      exDocOld { id := strL "M1", status := some (strL "Active") }
      (by decide) (by decide) (by decide),
    (getMembersByStatus_filter_then_dedup.2.2 [exDocOld, exDocNewActive]
      (strL "Active") (strL "M1")
      { id := strL "M1", status := some (strL "Active") } 2 (by decide)).2
      exDocOld (by decide) { id := strL "M1", status := some (strL "Active") }
      (by decide) (by decide) (by decide)⟩

/-- C1 counterexample: with two documents for the same id M1 — the older one
Active, the newer one Banned — `ListByStatus("Active")` still returns M1 even
though the later-modified document's status is Banned, refuting the claim
that the older document's status never survives the listing. -/
theorem getMembersByStatus_order_counterexample :
    (getMembersByStatusEntries [exDocOld, exDocNew] (strL "Active")).map Prod.fst
      = [strL "M1"]
    ∧ exDocOld.mtime < exDocNew.mtime
    ∧ (parseDoc exDocOld).map (fun p => (p.id, p.status))
        = some (strL "M1", some (strL "Active"))
    ∧ (parseDoc exDocNew).map (fun p => (p.id, p.status))
        = some (strL "M1", some (strL "Banned")) := by
  decide

theorem inits_dropLast_ne (p q : FPath) (hq : q ∈ p.inits) (hne : q ≠ []) :
    q.dropLast ≠ p := by
  intro hcontra
  have hpre : q <+: p := (List.mem_inits q p).1 hq
  have hlen : q.length ≤ p.length := hpre.length_le
  have hql : 1 ≤ q.length := by
    cases q with
    | nil => exact absurd rfl hne
    | cons a b => simp
  have hdl : q.dropLast.length = q.length - 1 := List.length_dropLast q
  rw [hcontra] at hdl
  omega

theorem glob_mkdirParents_self (fs : FS) (p : FPath) :
    globPdfEntries (mkdirParents fs p) p = globPdfEntries fs p := by
  unfold globPdfEntries mkdirParents
  dsimp only
  rw [← List.append_assoc, List.filter_append,
    show (List.filter
      (fun f => decide (f.dropLast = p)
        && endsWithS (strL ".pdf") (f.getLast?.getD []))
      (p.inits.filter fun q => decide (q ≠ []) && decide (q ∉ fs.dirs))) = [] from ?_,
    List.append_nil]
  rw [List.filter_eq_nil]
  intro q hq
  have hmem := List.mem_filter.1 hq
  have hcond := hmem.2
  rw [Bool.and_eq_true, decide_eq_true_eq, decide_eq_true_eq] at hcond
  have hdl := inits_dropLast_ne p q hmem.1 hcond.1
  simp [hdl]

theorem countSubdirs_mkdirParents_self (fs : FS) (p : FPath) :
    countSubdirs (mkdirParents fs p) p = countSubdirs fs p := by
  unfold countSubdirs mkdirParents
  dsimp only
  rw [List.filter_append,
    show (List.filter (fun d => decide (d.dropLast = p))
      (p.inits.filter fun q => decide (q ≠ []) && decide (q ∉ fs.dirs))) = [] from ?_,
    List.append_nil]
  rw [List.filter_eq_nil]
  intro q hq
  have hmem := List.mem_filter.1 hq
  have hcond := hmem.2
  rw [Bool.and_eq_true, decide_eq_true_eq, decide_eq_true_eq] at hcond
  have hdl := inits_dropLast_ne p q hmem.1 hcond.1
  simp [hdl]

/-- C6: whenever a PDF already sits directly in the id folder, the save
targets `ReAdmission_{count+1}` where count is the number of immediate
subfolders before the save; with no PDF present the save lands directly in
the id folder; and three saves of the same member from an empty store produce
exactly `id/`, `id/ReAdmission_1/`, `id/ReAdmission_2/`. -/
theorem saveNewMember_readmission_spec :
    (∀ (root : FPath) (fs : FS) (m : Member),
      globPdfEntries fs (saveBase root m) ≠ [] →
      (saveNewMember root fs m).2
        = saveBase root m
          ++ [strL "ReAdmission_"
                ++ natToStr (countSubdirs fs (saveBase root m) + 1),
              m.id ++ strL ".pdf"])
    ∧ (∀ (root : FPath) (fs : FS) (m : Member),
      globPdfEntries fs (saveBase root m) = [] →
      (saveNewMember root fs m).2 = saveBase root m ++ [m.id ++ strL ".pdf"])
    ∧ (saveNewMember [strL "Root"] {} exMember).2
        = [strL "Root", strL "2020", strL "February", strL "05", strL "M1",
           strL "M1.pdf"]
    ∧ (saveNewMember [strL "Root"]
        (saveNewMember [strL "Root"] {} exMember).1 exMember).2
        = [strL "Root", strL "2020", strL "February", strL "05", strL "M1",
           strL "ReAdmission_1", strL "M1.pdf"]
    ∧ (saveNewMember [strL "Root"]
        (saveNewMember [strL "Root"]
          (saveNewMember [strL "Root"] {} exMember).1 exMember).1 exMember).2
        = [strL "Root", strL "2020", strL "February", strL "05", strL "M1",
           strL "ReAdmission_2", strL "M1.pdf"] := by
  refine ⟨?_, ?_, by decide, by decide, by decide⟩
  · intro root fs m hne
    unfold saveNewMember
    dsimp only
    rw [glob_mkdirParents_self, countSubdirs_mkdirParents_self]
    rw [if_neg (by simpa [List.isEmpty_iff] using hne)]
    simp [List.append_assoc]
  · intro root fs m hemp
    unfold saveNewMember
    dsimp only
    rw [glob_mkdirParents_self]
    rw [if_pos (by simp [List.isEmpty_iff, hemp])]

/-- C6 witness: the re-admission clause applied to the store produced by the
first save, whose id folder already holds a PDF and no subfolder. -/
theorem saveNewMember_readmission_spec_witness :
    (saveNewMember [strL "Root"]
      (saveNewMember [strL "Root"] {} exMember).1 exMember).2
      = saveBase [strL "Root"] exMember
        ++ [strL "ReAdmission_"
              ++ natToStr (countSubdirs (saveNewMember [strL "Root"] {} exMember).1
                    (saveBase [strL "Root"] exMember) + 1),
            exMember.id ++ strL ".pdf"] :=
  saveNewMember_readmission_spec.1 [strL "Root"]
    (saveNewMember [strL "Root"] {} exMember).1 exMember (by decide)

/-- C9: when the newest document of an id decodes with no parsable Join Date
(day is the stored Python None), the status-update path raises — `int(None)`
is a `TypeError` — instead of rewriting the record with defaulted dates,
while the very same store remains decodable and listable: the concrete
dateless document still decodes, still appears in the pending scan, and
still appears in the status listing. -/
theorem updateMemberStatus_missing_join_date_spec :
    (∀ (docs : List Doc) (photos : Str → Option Str) (mid ns : Str)
        (p : ParsedMember),
      getMemberById docs photos mid = some p → p.day = none →
      updateMemberStatus docs photos mid ns = Except.error PyError.typeError)
    ∧ (parseDoc exDocNoDate).map (fun p => p.day) = some none
    ∧ getPendingMembers [exDocNoDate]
        = [{ id := strL "M9", name := strL "Sam", gender := strL "",
             date := strL "None/None/None", path := strL "nd" }]
    ∧ (getMembersByStatusEntries [exDocNoDate] (strL "Pending")).map Prod.fst
        = [strL "M9"] := by
  refine ⟨?_, by decide, by decide, by decide⟩
  intro docs photos mid ns p hp hday
  unfold updateMemberStatus
  rw [hp]
  dsimp only
  rw [hday]
  rfl

/-- C9 witness: the status update on the store holding only the dateless
document raises the modelled TypeError. -/
theorem updateMemberStatus_missing_join_date_spec_witness :
    updateMemberStatus [exDocNoDate] (fun _ => none) (strL "M9") (strL "Active")
      = Except.error PyError.typeError :=
  updateMemberStatus_missing_join_date_spec.1 [exDocNoDate] (fun _ => none)
    (strL "M9") (strL "Active")
    { id := strL "M9", name := strL "Sam", status := some (strL "Pending") }
    (by decide) rfl
